import Mathlib

/-!
Verification development for the `mari` hotkey-driven terminal launcher.

The JavaScript sources are embedded shallowly:

* JS numbers are IEEE-754 doubles whose user-visible behaviour goes through
  shortest-round-trip decimal strings.  We model them as exact decimal
  numbers `Dec` (integer mantissa `m` and decimal exponent `e`, denoting
  `m / 10 ^ e`).  All values manipulated by the claims are decimal
  representable, where the double semantics and the exact semantics agree;
  binary rounding artifacts are outside this model.
* JS strings are `List Char`; variable names are Lean `String`s.
* Fallible operations return `Option`; the JS `null`/`NaN` results map to
  `none`.
* The stateful REPL controller (`src/repl/index.js`, final revision) is a
  state machine `ReplState` with a transition function `handleKey` that also
  emits a list of `Effect`s describing the I/O the controller requests.
-/

namespace Mari

set_option maxHeartbeats 1000000

/-! ## Exact decimal numbers (model of JS numbers) -/

/-- Exact decimal number: `m / 10 ^ e`.  Model of a JS number value. -/
structure Dec where
  m : Int
  e : Nat
deriving DecidableEq, Repr

/-- Strip factors of ten from the mantissa, decreasing the exponent, until the
exponent is zero or the mantissa is no longer divisible by ten.  The result is
the canonical form of a decimal value, matching the shortest decimal string a
JS double prints as. -/
def normDec : Int → Nat → Dec
  | m, 0 => ⟨m, 0⟩
  | m, e + 1 => if m % 10 = 0 then normDec (m / 10) e else ⟨m, e + 1⟩

/-- A decimal value in canonical form. -/
def Dec.normal (d : Dec) : Prop := normDec d.m d.e = d

instance (d : Dec) : Decidable d.normal := by
  unfold Dec.normal; infer_instance

def decOne : Dec := ⟨1, 0⟩

def decOfInt (i : Int) : Dec := ⟨i, 0⟩

/-- Addition of decimal values (common exponent, then canonicalise). -/
def decAdd (a b : Dec) : Dec :=
  let e := max a.e b.e
  normDec (a.m * 10 ^ (e - a.e) + b.m * 10 ^ (e - b.e)) e

def decNeg (a : Dec) : Dec := ⟨-a.m, a.e⟩

def decSub (a b : Dec) : Dec := decAdd a (decNeg b)

def decMul (a b : Dec) : Dec := normDec (a.m * b.m) (a.e + b.e)

/-- Comparison `a ≤ b` of decimal values. -/
def decLe (a b : Dec) : Bool := a.m * 10 ^ b.e ≤ b.m * 10 ^ a.e

/-- JS `Math.min`. -/
def decMin (a b : Dec) : Dec := if decLe a b then a else b

/-- JS `Math.max`. -/
def decMax (a b : Dec) : Dec := if decLe a b then b else a

/-- JS `Math.floor` (rounds toward negative infinity). -/
def decFloor (a : Dec) : Dec := ⟨Int.fdiv a.m (10 ^ a.e), 0⟩

/-- Integer floor of a decimal value. -/
def decFloorInt (a : Dec) : Int := Int.fdiv a.m (10 ^ a.e)

/-! ## Decimal digit strings -/

def digitChar (n : Nat) : Char := Char.ofNat (48 + n)

def digitVal (c : Char) : Nat := c.toNat - 48

/-- Fuel-driven digit printer; the fuel always suffices because a number has
fewer digits than its own successor.  (Structural recursion keeps every
definition kernel-reducible.) -/
def natToCharsAux (fuel n : Nat) : List Char :=
  match fuel with
  | 0 => []
  | f + 1 =>
    if n < 10 then [digitChar n]
    else natToCharsAux f (n / 10) ++ [digitChar (n % 10)]

/-- Decimal digit string of a natural number, most significant digit first
(the JS `Number.prototype.toString` output for naturals). -/
def natToChars (n : Nat) : List Char := natToCharsAux (n + 1) n

/-- Numeric value of a digit string (most significant digit first). -/
def charsToNat (l : List Char) : Nat :=
  l.foldl (fun acc c => acc * 10 + digitVal c) 0

/-- JS `String()` of an integer-valued number. -/
def intToChars (i : Int) : List Char :=
  if i < 0 then '-' :: natToChars i.natAbs else natToChars i.toNat

/-- Left-pad a digit string with zeros up to width `k`. -/
def padZeros (l : List Char) (k : Nat) : List Char :=
  List.replicate (k - l.length) '0' ++ l

/-- JS `String()` of a decimal number value (plain notation; the exponential
notation JS uses for magnitudes out of `[1e-7, 1e21)` is outside this model,
as no value exercised by the claims reaches it). -/
def decChars (d : Dec) : List Char :=
  if d.e = 0 then intToChars d.m
  else
    (if d.m < 0 then ['-'] else []) ++
      natToChars (d.m.natAbs / 10 ^ d.e) ++
      '.' :: padZeros (natToChars (d.m.natAbs % 10 ^ d.e)) d.e

/-! ## JS numeric parsing -/

/-- Whitespace skipped by JS numeric parsing. -/
def jsWs (c : Char) : Bool := c = ' ' ∨ c = '\t' ∨ c = '\n' ∨ c = '\r'

/-- Split an optional leading sign; returns (negative?, rest). -/
def splitSign (l : List Char) : Bool × List Char :=
  match l with
  | c :: r =>
    if c = '+' then (false, r)
    else if c = '-' then (true, r)
    else (false, c :: r)
  | [] => (false, [])

/-- JS `parseInt(s, 10)`: skip whitespace, optional sign, then the longest
leading run of decimal digits; `NaN` (here `none`) when that run is empty.
Trailing characters are ignored. -/
def parseIntJs (s : List Char) : Option Int :=
  let p := splitSign (s.dropWhile jsWs)
  let ds := p.2.takeWhile Char.isDigit
  if ds.isEmpty then none
  else some (if p.1 then -(charsToNat ds : Int) else (charsToNat ds : Int))

/-- Exponent part of a JS float literal: `e`/`E`, optional sign, digits.
Returns the exponent value, or 0 when the exponent part is absent or
malformed (JS stops before a malformed exponent). -/
def parseExpPart (s : List Char) : Int :=
  match s with
  | c :: r =>
    if c = 'e' ∨ c = 'E' then
      let (neg, r1) := splitSign r
      let ds := r1.takeWhile Char.isDigit
      if ds.isEmpty then 0
      else if neg then -(charsToNat ds : Int) else (charsToNat ds : Int)
    else 0
  | [] => 0

/-- Combine mantissa, fractional length and exponent into a decimal value. -/
def decOfParts (m : Int) (fracLen : Nat) (expv : Int) : Dec :=
  let eff : Int := (fracLen : Int) - expv
  if eff ≤ 0 then normDec (m * 10 ^ (-eff).toNat) 0
  else normDec m eff.toNat

/-- Fraction part of a JS float literal: a dot followed by digits.  Returns
the fraction digits and the remaining characters. -/
def fracPart (l : List Char) : List Char × List Char :=
  match l with
  | c :: r =>
    if c = '.' then (r.takeWhile Char.isDigit, r.dropWhile Char.isDigit)
    else ([], c :: r)
  | [] => ([], [])

/-- JS `parseFloat`: skip whitespace and sign, longest decimal literal prefix
(integer digits, optional fraction, optional exponent); `none` models `NaN`.
The special literal `Infinity` is outside this model. -/
def parseFloatJs (s : List Char) : Option Dec :=
  let p := splitSign (s.dropWhile jsWs)
  let ip := p.2.takeWhile Char.isDigit
  let f := fracPart (p.2.dropWhile Char.isDigit)
  if ip.isEmpty ∧ f.1.isEmpty then none
  else
    let mAbs : Int := (charsToNat (ip ++ f.1) : Int)
    let m := if p.1 then -mAbs else mAbs
    some (decOfParts m f.1.length (parseExpPart f.2))

/-! ## Values and variable definitions (`src/config/variables.js`, part 014) -/

/-- Variable kinds: `type` field of a variable definition. -/
inductive VType where
  | int
  | float
  | string
  | enum
  | date
deriving DecidableEq, Repr

/-- Runtime JS values flowing through the variable engine.  Dates are
represented by their epoch day count. -/
inductive Value where
  | num (d : Dec)
  | str (s : List Char)
  | date (days : Int)
  | undef
deriving DecidableEq, Repr

/-- Variable definition (an activity schema entry).  The JS object field
`type` is called `vtype` here because `type` is reserved in Lean. -/
structure VarDef where
  vtype : VType
  range : Option (List Value) := none
  step : Option Dec := none
  format : Option (List Char) := none
  hotkey : Option Char := none
  value : Option Value := none
deriving DecidableEq, Repr

/-! ## Date utilities

Modelled from the spec: the date utilities (`src/utils/date.js`) are not in
the repository; only their callers are.  Dates are epoch day counts, the
civil conversions follow the standard days-from-civil algorithm, `parseDate`
accepts the ISO `YYYY-MM-DD` form (the spec also lists `M/d` and `M/d/yy`
forms with current-year resolution, which no claim exercises), and
`formatDate` substitutes the pattern tokens `yyyy`, `yy`, `MM`, `M`, `dd`,
`d` longest first. -/

def daysFromCivil (y : Int) (mo d : Nat) : Int :=
  let y1 := if mo ≤ 2 then y - 1 else y
  let era := (if 0 ≤ y1 then y1 else y1 - 399) / 400
  let yoe := (y1 - era * 400).toNat
  let mp := (mo + 9) % 12
  let doy := (153 * mp + 2) / 5 + d - 1
  let doe := yoe * 365 + yoe / 4 - yoe / 100 + doy
  era * 146097 + (doe : Int) - 719468

def civilFromDays (z0 : Int) : Int × Nat × Nat :=
  let z := z0 + 719468
  let era := (if 0 ≤ z then z else z - 146096) / 146097
  let doe := (z - era * 146097).toNat
  let yoe := (doe - doe / 1460 + doe / 36524 - doe / 146096) / 365
  let y := (yoe : Int) + era * 400
  let doy := doe - (365 * yoe + yoe / 4 - yoe / 100)
  let mp := (5 * doy + 2) / 153
  let d := doy - (153 * mp + 2) / 5 + 1
  let mo := if mp < 10 then mp + 3 else mp + 3 - 12
  (if mo ≤ 2 then y + 1 else y, mo, d)

def parseDate (s : List Char) : Option Int :=
  let y := s.takeWhile Char.isDigit
  let r1 := s.dropWhile Char.isDigit
  match r1 with
  | '-' :: r =>
    let mo := r.takeWhile Char.isDigit
    let r2 := r.dropWhile Char.isDigit
    match r2 with
    | '-' :: r3 =>
      let dd := r3.takeWhile Char.isDigit
      if y.isEmpty ∨ mo.isEmpty ∨ dd.isEmpty ∨ ¬ (r3.dropWhile Char.isDigit).isEmpty then
        none
      else
        some (daysFromCivil (charsToNat y) (charsToNat mo) (charsToNat dd))
    | _ => none
  | _ => none

def fmtDateGo (y : Int) (mo d : Nat) : List Char → List Char
  | 'y' :: 'y' :: 'y' :: 'y' :: r => intToChars y ++ fmtDateGo y mo d r
  | 'y' :: 'y' :: r => padZeros (natToChars (y.natAbs % 100)) 2 ++ fmtDateGo y mo d r
  | 'M' :: 'M' :: r => padZeros (natToChars mo) 2 ++ fmtDateGo y mo d r
  | 'M' :: r => natToChars mo ++ fmtDateGo y mo d r
  | 'd' :: 'd' :: r => padZeros (natToChars d) 2 ++ fmtDateGo y mo d r
  | 'd' :: r => natToChars d ++ fmtDateGo y mo d r
  | c :: r => c :: fmtDateGo y mo d r
  | [] => []

def formatDate (days : Int) (pat : List Char) : List Char :=
  let c := civilFromDays days
  fmtDateGo c.1 c.2.1 c.2.2 pat

/-- Modelled from the spec: `addDays` of the missing date utilities; the
date increment adds whole days (fractional steps are outside the model and
outside every claim). -/
def addDaysJs (days : Int) (inc : Dec) : Int := days + decFloorInt inc

/-- Modelled from the spec: `parseDateRange` of the missing date utilities;
a two-element range of date strings parsed to day counts. -/
def parseDateRange (r : Option (List Value)) : Option (Int × Int) :=
  match r with
  | some (Value.str a :: Value.str b :: []) =>
    match parseDate a, parseDate b with
    | some x, some y => some (x, y)
    | _, _ => none
  | _ => none

/-! ## JS string conversion and `Number()` coercion -/

/-- JS `String()` conversion of a value.  `String(undefined)` is the word
`undefined`; the long `Date` printing is approximated by an ISO date, which
no claim observes. -/
def jsString : Value → List Char
  | .num d => decChars d
  | .str s => s
  | .date n => formatDate n ("yyyy-MM-dd".toList)
  | .undef => "undefined".toList

/-- Exponent part with rest, for full-string number conversion. -/
def expPartRest (s : List Char) : Option (Int × List Char) :=
  match s with
  | c :: r =>
    if c = 'e' ∨ c = 'E' then
      let p := splitSign r
      let ds := p.2.takeWhile Char.isDigit
      if ds.isEmpty then none
      else some ((if p.1 then -(charsToNat ds : Int) else (charsToNat ds : Int)),
        p.2.dropWhile Char.isDigit)
    else none
  | [] => none

/-- JS `Number()` coercion of a string: trimmed, empty means zero, otherwise
the entire string must be a decimal literal (hex and `Infinity` literals are
outside this model); `none` models `NaN`. -/
def jsNumberOfString (s : List Char) : Option Dec :=
  let t := ((s.dropWhile jsWs).reverse.dropWhile jsWs).reverse
  if t.isEmpty then some ⟨0, 0⟩
  else
    let p := splitSign t
    let ip := p.2.takeWhile Char.isDigit
    let f := fracPart (p.2.dropWhile Char.isDigit)
    if ip.isEmpty ∧ f.1.isEmpty then none
    else
      let ev := expPartRest f.2
      let rest := match ev with | some (_, r) => r | none => f.2
      if ¬ rest.isEmpty then none
      else
        let mAbs : Int := (charsToNat (ip ++ f.1) : Int)
        let m := if p.1 then -mAbs else mAbs
        some (decOfParts m f.1.length (match ev with | some (x, _) => x | none => 0))

/-- JS `Number(value)` coercion; `none` models `NaN`. -/
def toNumberOpt : Value → Option Dec
  | .num d => some d
  | .str s => jsNumberOfString s
  | .date n => some ⟨n, 0⟩
  | .undef => none

/-! ## Printf-style formatting (`src/utils/format.js`, part 005) -/

def hexChar (n : Nat) : Char :=
  if n < 10 then digitChar n else Char.ofNat (97 + (n - 10))

def natToHexCharsAux (fuel n : Nat) : List Char :=
  match fuel with
  | 0 => []
  | f + 1 =>
    if n < 16 then [hexChar n]
    else natToHexCharsAux f (n / 16) ++ [hexChar (n % 16)]

def natToHexChars (n : Nat) : List Char := natToHexCharsAux (n + 1) n

def intToHexChars (i : Int) : List Char :=
  if i < 0 then '-' :: natToHexChars i.natAbs else natToHexChars i.toNat

/-- JS `toFixed(p)`: round to `p` decimals, ties toward positive infinity. -/
def toFixed (d : Dec) (p : Nat) : List Char :=
  let n := Int.fdiv (2 * d.m * 10 ^ p + 10 ^ d.e) (2 * 10 ^ d.e)
  if p = 0 then intToChars n
  else
    (if n < 0 then ['-'] else []) ++
      natToChars (n.natAbs / 10 ^ p) ++
      '.' :: padZeros (natToChars (n.natAbs % 10 ^ p)) p

/-- Strip trailing decimal zeros from a mantissa (fuel-driven; the absolute
value bounds the number of strips). -/
def stripTensAux (fuel : Nat) (m : Int) : Int × Nat :=
  match fuel with
  | 0 => (m, 0)
  | f + 1 =>
    if ¬ (m = 0) ∧ m % 10 = 0 then
      let p := stripTensAux f (m / 10)
      (p.1, p.2 + 1)
    else (m, 0)

def stripTens (m : Int) : Int × Nat := stripTensAux m.natAbs m

def expSuffix (e : Int) : List Char :=
  'e' :: (if e < 0 then '-' else '+') :: natToChars e.natAbs

def mantissaChars (sgn : List Char) (ds : List Char) (expv : Int) : List Char :=
  match ds with
  | [c] => sgn ++ c :: expSuffix expv
  | c :: rest => sgn ++ c :: '.' :: rest ++ expSuffix expv
  | [] => sgn ++ expSuffix expv

/-- JS `toExponential`: one mantissa digit before the point, `p` digits after
(or as many as needed when `p` is absent), ties rounded up. -/
def toExponentialJs (d : Dec) (p : Option Nat) : List Char :=
  if d.m = 0 then
    match p with
    | none => "0e+0".toList
    | some 0 => "0e+0".toList
    | some q => '0' :: '.' :: List.replicate q '0' ++ "e+0".toList
  else
    let dl := (natToChars d.m.natAbs).length
    let expv : Int := (dl : Int) - 1 - (d.e : Int)
    let sgn := if d.m < 0 then ['-'] else []
    match p with
    | none => mantissaChars sgn (natToChars (stripTens d.m).1.natAbs) expv
    | some q =>
      let mab := d.m.natAbs
      let r0 := (2 * mab * 10 ^ q + 10 ^ (dl - 1)) / (2 * 10 ^ (dl - 1))
      let rx := if 10 ^ (q + 1) ≤ r0 then (r0 / 10, expv + 1) else (r0, expv)
      mantissaChars sgn (padZeros (natToChars rx.1) (q + 1)) rx.2

/-- Specifier characters of the printf matcher. -/
def fmtSpecChar (c : Char) : Bool :=
  c = 'd' ∨ c = 'f' ∨ c = 's' ∨ c = 'x' ∨ c = 'X' ∨ c = 'e' ∨ c = 'E' ∨ c = '%'

/-- Attempt to match the tail of `%[flags][width][.precision]specifier` right
after a percent sign, mirroring the regex in `sprintf`. -/
def fmtAttempt (l : List Char) :
    Option (Bool × List Char × Option (List Char) × Char × List Char) :=
  let sp :=
    match l with
    | c :: r => if c = '-' then (true, r) else (false, c :: r)
    | [] => (false, [])
  let w := sp.2.takeWhile Char.isDigit
  let l2 := sp.2.dropWhile Char.isDigit
  let pp :=
    match l2 with
    | c :: r =>
      if c = '.' then
        let ds := r.takeWhile Char.isDigit
        if ds.isEmpty then ((none : Option (List Char)), l2)
        else (some ds, r.dropWhile Char.isDigit)
      else (none, l2)
    | [] => (none, [])
  match pp.2 with
  | c :: r => if fmtSpecChar c then some (sp.1, w, pp.1, c, r) else none
  | [] => none

/-- Leftmost match of the printf pattern; returns the text before the match,
the match data, and the text after it. -/
def findFmt (l : List Char) :
    Option (List Char × Bool × List Char × Option (List Char) × Char × List Char) :=
  match l with
  | [] => none
  | c :: r =>
    if c = '%' then
      match fmtAttempt r with
      | some (la, w, pr, sp, post) => some ([], la, w, pr, sp, post)
      | none =>
        match findFmt r with
        | some (pre, rest) => some (c :: pre, rest)
        | none => none
    else
      match findFmt r with
      | some (pre, rest) => some (c :: pre, rest)
      | none => none

/-- Replacement used on the `no format specifier` fallback path: substitute
the first occurrence of a bare `%d`, `%f` or `%s`. -/
def replaceFirstPDFS (l : List Char) (rep : List Char) : List Char :=
  match l with
  | [] => []
  | c :: r =>
    match r with
    | c2 :: r2 =>
      if c = '%' ∧ (c2 = 'd' ∨ c2 = 'f' ∨ c2 = 's') then rep ++ r2
      else c :: replaceFirstPDFS r rep
    | [] => [c]

/-- Result text for one specifier. -/
def fmtApply (sp : Char) (precNum : Option Nat) (v : Value) : List Char :=
  if sp = 'd' then
    match toNumberOpt v with
    | some d => intToChars (decFloorInt d)
    | none => "NaN".toList
  else if sp = 'f' then
    match toNumberOpt v with
    | some d =>
      match precNum with
      | some p => toFixed d p
      | none => decChars d
    | none => "NaN".toList
  else if sp = 's' then
    match precNum with
    | some p => (jsString v).take p
    | none => jsString v
  else if sp = 'x' then
    match toNumberOpt v with
    | some d => intToHexChars (decFloorInt d)
    | none => "NaN".toList
  else if sp = 'X' then
    match toNumberOpt v with
    | some d => (intToHexChars (decFloorInt d)).map Char.toUpper
    | none => "NaN".toList
  else if sp = 'e' then
    match toNumberOpt v with
    | some d => toExponentialJs d precNum
    | none => "NaN".toList
  else if sp = 'E' then
    match toNumberOpt v with
    | some d => (toExponentialJs d precNum).map Char.toUpper
    | none => "NaN".toList
  else if sp = '%' then ['%']
  else jsString v

/-- The printf-style `sprintf` of `src/utils/format.js`: find the first
format pattern, render the value, apply width padding, and splice the result
back in place of the pattern.  (Dollar patterns inside the replacement text,
a JS `String.replace` quirk, are not modelled.) -/
def sprintf (f : List Char) (v : Value) : List Char :=
  if f.isEmpty then jsString v
  else
    match findFmt f with
    | none => replaceFirstPDFS f (jsString v)
    | some (pre, la, w, prec, sp, post) =>
      let widthNum := match parseIntJs w with | some i => i.toNat | none => 0
      let precNum : Option Nat := prec.map charsToNat
      let result := fmtApply sp precNum v
      let padded :=
        if result.length < widthNum then
          if la then result ++ List.replicate (widthNum - result.length) ' '
          else
            let padChar := if w.head? = some '0' then '0' else ' '
            List.replicate (widthNum - result.length) padChar ++ result
        else result
      pre ++ padded ++ post

/-! ## The variable type engine (`src/config/variables.js`, part 014) -/

/-- Parse user input into the correct type (`parseValue`); `none` models the
JS `null` result for invalid input. -/
def parseValue (input : List Char) (vd : VarDef) : Option Value :=
  match vd.vtype with
  | .int => (parseIntJs input).map (fun i => Value.num ⟨i, 0⟩)
  | .float => (parseFloatJs input).map Value.num
  | .string => some (.str input)
  | .enum =>
    match vd.range with
    | some l => if (Value.str input) ∈ l then some (.str input) else none
    | none => none
  | .date => (parseDate input).map Value.date

/-- Format a value for display (`formatValue`). -/
def formatValue (v : Value) (vd : VarDef) : List Char :=
  match v with
  | .undef => []
  | _ =>
    match vd.vtype with
    | .int | .float =>
      match vd.format with
      | some f => sprintf f v
      | none => jsString v
    | .string | .enum => jsString v
    | .date =>
      match v with
      | .date n => formatDate n (vd.format.getD ("M/d".toList))
      | _ => jsString v

/-- The `def.step || 1` idiom: a missing or zero step falls back to one. -/
def getStep (vd : VarDef) : Dec :=
  match vd.step with
  | some s => if s.m = 0 then decOne else s
  | none => decOne

/-- A two-element numeric range, as destructured by the int and float cases.
The model covers well-typed numeric ranges; a malformed range would make the
JS code propagate `NaN`, which no activity definition does. -/
def numRange2 (r : Option (List Value)) : Option (Dec × Dec) :=
  match r with
  | some (Value.num a :: Value.num b :: []) => some (a, b)
  | _ => none

/-- JS `Array.prototype.indexOf` on the range list: index of the first equal
element, `-1` when absent. -/
def jsIndexOf (l : List Value) (v : Value) : Int :=
  match l.findIdx? (fun x => x = v) with
  | some i => (i : Int)
  | none => -1

/-- Increment a value (`incrementValue`, for jog wheel, plus key or arrow
up): int and float add `step * amount` and clamp to the range; enum rotates
forward with wraparound; date adds days and clamps to the parsed date range.
A non-numeric value reaching the numeric case is returned unchanged (the JS
code would produce `NaN`; no claim and no reachable state exercises it). -/
def incrementValue (v : Value) (vd : VarDef) (amount : Dec := decOne) : Value :=
  let inc := decMul (getStep vd) amount
  match vd.vtype with
  | .int | .float =>
    match v with
    | .num d =>
      let newVal := decAdd d inc
      let clamped :=
        match numRange2 vd.range with
        | some (mn, mx) => decMax mn (decMin mx newVal)
        | none => newVal
      if vd.vtype = VType.int then .num (decFloor clamped) else .num clamped
    | _ => v
  | .enum =>
    match vd.range with
    | some l =>
      if l.isEmpty then v
      else
        let currentIdx := jsIndexOf l v
        let nextIdx := ((currentIdx + 1) % (l.length : Int)).toNat
        (l.get? nextIdx).getD Value.undef
    | none => v
  | .date =>
    match v with
    | .date n =>
      let nd := addDaysJs n inc
      match parseDateRange vd.range with
      | some (mn, mx) =>
        let nd1 := if nd < mn then mn else nd
        let nd2 := if mx < nd1 then mx else nd1
        .date nd2
      | none => .date nd
    | _ => v
  | _ => v

/-- Decrement a value (`decrementValue`): int and float subtract and clamp;
enum rotates backward with wraparound (a missing or leftmost current value
moves to the last element); date subtracts days and clamps. -/
def decrementValue (v : Value) (vd : VarDef) (amount : Dec := decOne) : Value :=
  let dec := decMul (getStep vd) amount
  match vd.vtype with
  | .int | .float =>
    match v with
    | .num d =>
      let newVal := decSub d dec
      let clamped :=
        match numRange2 vd.range with
        | some (mn, mx) => decMax mn (decMin mx newVal)
        | none => newVal
      if vd.vtype = VType.int then .num (decFloor clamped) else .num clamped
    | _ => v
  | .enum =>
    match vd.range with
    | some l =>
      if l.isEmpty then v
      else
        let currentIdx := jsIndexOf l v
        let prevIdx := (if currentIdx ≤ 0 then (l.length : Int) - 1 else currentIdx - 1).toNat
        (l.get? prevIdx).getD Value.undef
    | none => v
  | .date =>
    match v with
    | .date n =>
      let nd := addDaysJs n (decNeg dec)
      match parseDateRange vd.range with
      | some (mn, mx) =>
        let nd1 := if nd < mn then mn else nd
        let nd2 := if mx < nd1 then mx else nd1
        .date nd2
      | none => .date nd
    | _ => v
  | _ => v

/-! ## Input decoder (`src/repl/input.js`) -/

def escChar : Char := Char.ofNat 27

def ctrlCChar : Char := Char.ofNat 3

def ctrlDChar : Char := Char.ofNat 4

def ctrlLChar : Char := Char.ofNat 12

def backspaceChar : Char := Char.ofNat 127

inductive SpecialKey where
  | enter
  | escape
  | backspace
  | delete
  | tab
  | shiftTab
deriving DecidableEq, Repr

inductive ArrowKey where
  | up
  | down
  | left
  | right
deriving DecidableEq, Repr

/-- Classified key events produced by `parseKey`. -/
inductive Key where
  | ctrl (c : Char)
  | special (k : SpecialKey)
  | arrow (a : ArrowKey)
  | char (c : Char)
  | escSeq (raw : List Char)
  | unknown (raw : List Char)
deriving DecidableEq, Repr

/-- Classify one chunk of raw input (`parseKey`), following the source order
of comparisons: control bytes, special keys, arrow sequences, printable
ASCII, unknown escape sequences, and everything else. -/
def parseKey (s : List Char) : Key :=
  if s = [ctrlCChar] then .ctrl 'c'
  else if s = [ctrlDChar] then .ctrl 'd'
  else if s = [ctrlLChar] then .ctrl 'l'
  else if s = ['\r'] ∨ s = ['\n'] then .special .enter
  else if s = [escChar] then .special .escape
  else if s = [backspaceChar] then .special .backspace
  else if s = [escChar, '[', '3', '~'] then .special .delete
  else if s = ['\t'] then .special .tab
  else if s = [escChar, '[', 'Z'] then .special .shiftTab
  else if s = [escChar, '[', 'A'] then .arrow .up
  else if s = [escChar, '[', 'B'] then .arrow .down
  else if s = [escChar, '[', 'D'] then .arrow .left
  else if s = [escChar, '[', 'C'] then .arrow .right
  else
    match s with
    | [c] =>
      if ' ' ≤ c ∧ c ≤ '~' then .char c
      else if c = escChar then .escSeq s
      else .unknown s
    | _ => if s.head? = some escChar then .escSeq s else .unknown s

/-- CSI parameter bytes, as scanned by `_handleData`: anything between `0`
and `?` in code-unit order. -/
def isParamByte (c : Char) : Bool := '0' ≤ c ∧ c ≤ '?'

/-- Scan a CSI body: parameter bytes, then one final byte.  Returns the
parameter bytes, the final byte when present, and the remaining characters. -/
def scanCSI : List Char → List Char × Option Char × List Char
  | [] => ([], none, [])
  | c :: rest =>
    if isParamByte c then
      let p := scanCSI rest
      (c :: p.1, p.2.1, p.2.2)
    else ([], some c, rest)

/-- The chunk for a scanned CSI sequence (`ESC [ params final?`). -/
def csiChunk (sc : List Char × Option Char × List Char) : List Char :=
  escChar :: '[' :: sc.1 ++ (match sc.2.1 with | some fc => [fc] | none => [])

/-- Fuel-driven splitter mirroring the scanning loop of
`InputHandler._handleData`: each iteration takes one character, or a whole
CSI sequence when the chunk starts with `ESC [`. -/
def splitChunksAux (fuel : Nat) (s : List Char) : List (List Char) :=
  match fuel with
  | 0 => []
  | f + 1 =>
    match s with
    | [] => []
    | c :: rest =>
      if c = escChar then
        match rest with
        | c2 :: rest2 =>
          if c2 = '[' then
            let sc := scanCSI rest2
            csiChunk sc :: splitChunksAux f sc.2.2
          else [c] :: splitChunksAux f rest
        | [] => [c] :: splitChunksAux f []
      else [c] :: splitChunksAux f rest

/-- Split one raw data chunk into per-keypress chunks (`_handleData`). -/
def splitChunks (s : List Char) : List (List Char) := splitChunksAux s.length s

/-- One `_handleData` invocation: the ordered key events emitted for a raw
chunk. -/
def decodeChunk (s : List Char) : List Key := (splitChunks s).map parseKey

/-- The events emitted when the same stream arrives split into several
chunks, one `_handleData` invocation per chunk. -/
def decodeChunks (chunks : List (List Char)) : List Key :=
  (chunks.map decodeChunk).flatten

/-- True when the chunk scanner consumes the chunk without ending inside a
CSI sequence and without a trailing bare escape byte (which could be the
start of a sequence continued in the next chunk). -/
def chunkCompleteAux (fuel : Nat) (s : List Char) : Bool :=
  match fuel with
  | 0 => s.isEmpty
  | f + 1 =>
    match s with
    | [] => true
    | c :: rest =>
      if c = escChar then
        match rest with
        | c2 :: rest2 =>
          if c2 = '[' then
            match (scanCSI rest2).2.1 with
            | some _ => chunkCompleteAux f (scanCSI rest2).2.2
            | none => false
          else chunkCompleteAux f rest
        | [] => false
      else chunkCompleteAux f rest

/-- A chunk whose boundary with the following input cannot fall inside an
escape sequence. -/
def chunkComplete (s : List Char) : Bool := chunkCompleteAux s.length s

/-! ## Child interrupt manager (`src/commands/signal.js`) -/

/-- A registered child process, with its process id and, as environment
facts, whether signalling its process group or the child directly would
throw (for example because the group already exited). -/
structure ChildProc where
  pid : Int
  groupKillFails : Bool
  directKillFails : Bool
deriving DecidableEq, Repr

inductive Sig where
  | sigint
  | sigkill
deriving DecidableEq, Repr

/-- Observable actions of the interrupt manager.  `signalGroup pgid s`
stands for `process.kill(-pgid, s)`, which signals the whole process
group. -/
inductive SigAction where
  | signalGroup (pgid : Int) (s : Sig)
  | signalChild (s : Sig)
  | emergencyCallback
  | exitProcess
deriving DecidableEq, Repr

/-- The module state of `signal.js`: the registered child, the interrupt
counter, and whether an emergency-exit callback was supplied. -/
structure SignalState where
  child : Option ChildProc
  interruptCount : Nat
  hasExitCallback : Bool
deriving DecidableEq, Repr

/-- `registerChildProcess(proc, onExit)`: records the child and resets the
interrupt counter. -/
def registerChildProcess (proc : ChildProc) (hasCb : Bool) : SignalState :=
  ⟨some proc, 0, hasCb⟩

/-- `unregisterChildProcess()`: clears the child and resets the counter. -/
def unregisterChildProcess (_st : SignalState) : SignalState :=
  ⟨none, 0, false⟩

/-- The delivered signal actions for one escalation step: the process group
first, falling back to the child directly when group signalling throws, and
swallowing the error when both throw. -/
def sendSignalActions (proc : ChildProc) (sg : Sig) : List SigAction :=
  if proc.groupKillFails then
    if proc.directKillFails then [] else [SigAction.signalChild sg]
  else [SigAction.signalGroup proc.pid sg]

/-- `handleInterrupt()`: returns the new state, whether the interrupt was
handled (a child was registered), and the observable actions. -/
def handleInterrupt (st : SignalState) : SignalState × Bool × List SigAction :=
  match st.child with
  | none => (st, false, [])
  | some proc =>
    let st1 := { st with interruptCount := st.interruptCount + 1 }
    if st1.interruptCount = 1 then (st1, true, sendSignalActions proc Sig.sigint)
    else if st1.interruptCount = 2 then (st1, true, sendSignalActions proc Sig.sigkill)
    else (st1, true,
      (if st1.hasExitCallback then [SigAction.emergencyCallback] else []) ++
        [SigAction.exitProcess])

/-! ## Variable store (`src/commands/store.js` revision in the repository,
restricted to the current activity; activity switching is not exercised by
any claim) -/

def setAssoc : List (String × Value) → String → Value → List (String × Value)
  | [], n, v => [(n, v)]
  | (k, w) :: r, n, v => if k = n then (n, v) :: r else (k, w) :: setAssoc r n v

structure Store where
  defs : List (String × VarDef)
  values : List (String × Value)
deriving DecidableEq, Repr

def Store.getDef (s : Store) (n : String) : Option VarDef :=
  (s.defs.find? (fun p => p.1 = n)).map Prod.snd

def Store.get (s : Store) (n : String) : Value :=
  ((s.values.find? (fun p => p.1 = n)).map Prod.snd).getD Value.undef

def Store.set (s : Store) (n : String) (v : Value) : Store :=
  if (s.getDef n).isSome then { s with values := setAssoc s.values n v } else s

def Store.findByHotkey (s : Store) (c : Char) : Option (String × VarDef) :=
  s.defs.find? (fun p => p.2.hotkey = some c)

def Store.firstVar (s : Store) : Option (String × VarDef) := s.defs.head?

def Store.nextVar (s : Store) (cur : String) : Option (String × VarDef) :=
  if s.defs.isEmpty then none
  else
    match s.defs.findIdx? (fun p => p.1 = cur) with
    | none => none
    | some i => s.defs.get? ((i + 1) % s.defs.length)

def Store.prevVar (s : Store) (cur : String) : Option (String × VarDef) :=
  if s.defs.isEmpty then none
  else
    match s.defs.findIdx? (fun p => p.1 = cur) with
    | none => none
    | some i => s.defs.get? ((i + s.defs.length - 1) % s.defs.length)

/-- Modelled in part: the runtime default (`getDefaultValue`); the literal
`value` field wins, otherwise a per-type default.  JS-expression `default`
fields evaluate arbitrary code and are outside the model (no claim uses
them); `new Date()` is pinned to the epoch. -/
def getDefaultValue (vd : VarDef) : Value :=
  match vd.value with
  | some v => v
  | none =>
    match vd.vtype with
    | .int => .num ⟨0, 0⟩
    | .float => .num ⟨0, 0⟩
    | .string => .str []
    | .enum =>
      match vd.range with
      | some (v :: _) => v
      | _ => .str []
    | .date => .date 0

def Store.reset (s : Store) (n : String) : Store × Bool :=
  match s.getDef n with
  | some vd => ({ s with values := setAssoc s.values n (getDefaultValue vd) }, true)
  | none => (s, false)

def Store.getFormattedDisplay (s : Store) : List (List Char) :=
  s.defs.map (fun p => p.1.toList ++ ':' :: formatValue (s.get p.1) p.2)

/-- Modelled from the spec: `snapshotValues()` of the external store
interface; the store revision defining it is absent from the repository.
Per spec it captures all current variable values. -/
def Store.snapshotValues (s : Store) : List (String × Value) := s.values

/-- Modelled from the spec: `restoreValues(snapshot)`; replaces all current
variable values with the snapshot. -/
def Store.restoreValues (s : Store) (snap : List (String × Value)) : Store :=
  { s with values := snap }

/-! ## Mode state machine (`src/repl/modes.js`) -/

inductive Mode where
  | normal
  | cmd
  | input
  | agent
  | llm
  | shell
  | word
  | voice
deriving DecidableEq, Repr

structure ModeSM where
  mode : Mode
  buffer : List Char
  inputVar : Option String
  inputBuffer : List Char
deriving DecidableEq, Repr

def ModeSM.init : ModeSM := ⟨Mode.normal, [], none, []⟩

def ModeSM.toNormal (_m : ModeSM) : ModeSM := ⟨Mode.normal, [], none, []⟩

def ModeSM.toCmd (m : ModeSM) : ModeSM := { m with mode := Mode.cmd, buffer := [] }

def ModeSM.toInput (m : ModeSM) (v : String) : ModeSM :=
  { m with mode := Mode.input, inputVar := some v, inputBuffer := [] }

def ModeSM.toAgent (m : ModeSM) : ModeSM := { m with mode := Mode.agent, buffer := [] }

/-- Modelled from the spec: the mode-machine revision defining the LLM,
SHELL, WORD and VOICE transitions is absent from the repository (the tracked
`modes.js` is a superseded revision without them); per spec each trigger
enters its mode with a cleared single-line buffer. -/
def ModeSM.toLlm (m : ModeSM) : ModeSM := { m with mode := Mode.llm, buffer := [] }

def ModeSM.toShell (m : ModeSM) : ModeSM := { m with mode := Mode.shell, buffer := [] }

def ModeSM.toWord (m : ModeSM) : ModeSM := { m with mode := Mode.word, buffer := [] }

def ModeSM.toVoice (m : ModeSM) : ModeSM := { m with mode := Mode.voice, buffer := [] }

def ModeSM.appendBuffer (m : ModeSM) (c : Char) : ModeSM :=
  { m with buffer := m.buffer ++ [c] }

def ModeSM.backspaceBuffer (m : ModeSM) : ModeSM :=
  if m.buffer.isEmpty then m else { m with buffer := m.buffer.dropLast }

def ModeSM.clearBuffer (m : ModeSM) : ModeSM := { m with buffer := [] }

/-! ## REPL controller (`src/repl/index.js` final revision, part 011) -/

/-- A completed or open execution round.  Modelled from the spec: the round
log lives in `src/repl/buffer.js`, which is absent from the repository; per
spec a round is the echoed command line plus every line appended while it
runs, and the log is append-only except that the most recent round can be
removed by undo. -/
structure Round where
  command : List Char
  lineCount : Nat
deriving DecidableEq, Repr

/-- Observable side effects requested by the controller.  Rendering and
spinner updates are pure display and carry no information the claims
observe, so they are not recorded. -/
inductive Effect where
  | flash (msg : List Char)
  | eraseLines (n : Nat)
  | output (line : List Char)
  | execCommand (key input : List Char)
  | execLlm (prompt agent : List Char)
  | execShell (cmd : List Char)
  | persist
  | clearScreenEff
  | scheduleExitReset
  | stopRepl
  | voiceStart
  | voiceStop
  | sig (a : SigAction)
  | showHelpEff
  | reloadEff
deriving DecidableEq, Repr

/-- External collaborators of the controller (§6 of the spec): the resolved
activity commands, word bindings, LLM shell configuration, and the external
template-substitution wrapper used for the echoed command line. -/
structure Env where
  commands : List (List Char × List Char)
  words : List (List Char × List Char)
  llmShell : Option (List Char)
  defaultAgent : List Char
  expand : List Char → List Char → List Char

def getCommandTemplate (env : Env) (k : List Char) : Option (List Char) :=
  (env.commands.find? (fun p => p.1 = k)).map Prod.snd

def isCommandKey (env : Env) (k : List Char) : Bool :=
  (getCommandTemplate env k).isSome

/-- The full state of the `Repl` object, the signal module and the round
log. -/
structure ReplState where
  running : Bool
  sm : ModeSM
  store : Store
  sig : SignalState
  inlineBuffer : List Char
  inputValue : List Char
  originalValues : Option (List (String × Value))
  awaitingCtrlXCombo : Bool
  currentAgent : Option (List Char)
  lastCommandKey : Option (List Char)
  exitPressCount : Nat
  rounds : List Round
  roundOpen : Bool
deriving Repr

/-- Modelled from the spec: `startRound` of the round log. -/
def startRound (st : ReplState) (cmd : List Char) : ReplState :=
  { st with rounds := st.rounds ++ [⟨cmd, 0⟩], roundOpen := true }

/-- Modelled from the spec: `endRound` of the round log. -/
def endRound (st : ReplState) : ReplState := { st with roundOpen := false }

/-- Modelled from the spec: `getRoundCount` of the round log. -/
def getRoundCount (st : ReplState) : Nat := st.rounds.length

/-- Modelled from the spec: `addLinesToCurrentRound`; accumulates printed
lines into the open round. -/
def addLinesToCurrentRound (st : ReplState) (n : Nat) : ReplState :=
  if st.roundOpen then
    match st.rounds.getLast? with
    | some r =>
      { st with rounds := st.rounds.dropLast ++ [{ r with lineCount := r.lineCount + n }] }
    | none => st
  else st

/-- Modelled from the spec: `undoLastRound` pops the most recent round and
reports it together with the shrunk log. -/
def undoLastRoundFn (st : ReplState) : Option (Round × ReplState) :=
  match st.rounds.getLast? with
  | some r => some (r, { st with rounds := st.rounds.dropLast })
  | none => none

def countNewlines (l : List Char) : Nat := l.countP (fun c => c = '\n')

/-- `Repl._addOutput`: print one line and record its line count into the
open round. -/
def addOutput (st : ReplState) (line : List Char) : ReplState × List Effect :=
  (addLinesToCurrentRound st (1 + countNewlines line), [Effect.output line])

def addOutputs (st : ReplState) (lines : List (List Char)) : ReplState × List Effect :=
  lines.foldl
    (fun acc line =>
      let r := addOutput acc.1 line
      (r.1, acc.2 ++ r.2))
    (st, [])

def truncateCmd (cmd : List Char) : List Char :=
  if 40 < cmd.length then cmd.take 37 ++ "...".toList else cmd

/-- `Repl._undoLastRound`: a flash message and no erasure when the round
log is empty; otherwise pop the round, erase its lines, and flash the undone
command. -/
def undoLastRoundAction (st : ReplState) : ReplState × List Effect :=
  if getRoundCount st = 0 then
    (st, [Effect.flash ("No rounds to undo".toList)])
  else
    match undoLastRoundFn st with
    | some (r, st1) =>
      let cmd := if r.command.isEmpty then "(empty)".toList else r.command
      (st1, [Effect.eraseLines r.lineCount,
        Effect.flash ("Undid: ".toList ++ truncateCmd cmd)])
    | none => (st, [])

def stopReplAction (st : ReplState) : ReplState × List Effect :=
  ({ st with running := false }, [Effect.stopRepl])

/-- `Repl._executeCurrentCommand` (also `_executeCommandByKey`, which is the
same path with empty input): echo the expanded command, run it inside a
round, and print a trailing blank line.  `_extractInput` returns the empty
string in this revision, so the input is always empty. -/
def execCurrentCommand (env : Env) (st : ReplState) (key : List Char) :
    ReplState × List Effect :=
  match getCommandTemplate env key with
  | none => (st, [])
  | some template =>
    let st := { st with lastCommandKey := some key }
    let expanded := '$' :: ' ' :: env.expand template []
    let st := startRound st expanded
    let r1 := addOutput st expanded
    let st := endRound r1.1
    let r2 := addOutput st []
    (r2.1, r1.2 ++ [Effect.execCommand key []] ++ r2.2)

/-- `Repl._executeBufferCommand`: try every prefix of the buffer from the
longest down as a command key; the first hit executes with the remainder as
input, otherwise an unknown-command line is printed. -/
def execBufferCommandAux (env : Env) (st : ReplState) (buffer : List Char) :
    Nat → ReplState × List Effect
  | 0 => addOutput st ("Unknown command: ".toList ++ buffer)
  | len + 1 =>
    let pfx := buffer.take (len + 1)
    match getCommandTemplate env pfx with
    | some template =>
      let input := buffer.drop (len + 1)
      let st := { st with lastCommandKey := some pfx }
      let expanded := '$' :: ' ' :: env.expand template input
      let st := startRound st expanded
      let r1 := addOutput st expanded
      let st := endRound r1.1
      let r2 := addOutput st []
      (r2.1, r1.2 ++ [Effect.execCommand pfx input] ++ r2.2)
    | none => execBufferCommandAux env st buffer len

def execBufferCommand (env : Env) (st : ReplState) (buffer : List Char) :
    ReplState × List Effect :=
  execBufferCommandAux env st buffer buffer.length

def splitWordsGo (acc : List Char) : List Char → List (List Char)
  | [] => if acc.isEmpty then [] else [acc.reverse]
  | c :: r =>
    if jsWs c then
      if acc.isEmpty then splitWordsGo [] r
      else acc.reverse :: splitWordsGo [] r
    else splitWordsGo (c :: acc) r

/-- `cmd.trim().split(/\s+/)` as used by the colon-command parser. -/
def splitWords (l : List Char) : List (List Char) := splitWordsGo [] l

def joinWords : List (List Char) → List Char
  | [] => []
  | [w] => w
  | w :: rest => w ++ ' ' :: joinWords rest

def trimJs (l : List Char) : List Char :=
  ((l.dropWhile jsWs).reverse.dropWhile jsWs).reverse

/-- `Repl._executeCmdCommand`: the colon commands.  `:reload` touches disk
through external collaborators and is recorded as an effect only. -/
def execCmdCommand (st : ReplState) (cmd : List Char) : ReplState × List Effect :=
  let parts := splitWords cmd
  let command := (parts.head?).getD []
  let args := parts.tail
  if command = "q".toList ∨ command = "quit".toList then stopReplAction st
  else if command = "set".toList then
    if 2 ≤ args.length then
      let varChars := (args.head?).getD []
      let varName := String.mk varChars
      let value := joinWords args.tail
      match st.store.getDef varName with
      | some vd =>
        match parseValue value vd with
        | some parsed =>
          let st1 := { st with store := st.store.set varName parsed }
          addOutput st1 (varChars ++ '=' :: formatValue parsed vd)
        | none => addOutput st ("Invalid value for ".toList ++ varChars)
      | none => addOutput st ("Unknown variable: ".toList ++ varChars)
    else (st, [])
  else if command = "unset".toList then
    match args.head? with
    | some varChars =>
      let r := st.store.reset (String.mk varChars)
      if r.2 then addOutput { st with store := r.1 } (varChars ++ " reset to default".toList)
      else addOutput st ("Unknown variable: ".toList ++ varChars)
    | none => (st, [])
  else if command = "vars".toList then
    addOutputs st (st.store.getFormattedDisplay)
  else if command = "reload".toList then (st, [Effect.reloadEff])
  else if command = "help".toList then
    addOutputs st
      [":set VAR VALUE  - Set variable".toList,
       ":unset VAR      - Reset variable".toList,
       ":vars           - List variables".toList,
       ":reload         - Reload activities".toList,
       ":q / :quit      - Exit".toList]
  else if command.isEmpty then (st, [])
  else addOutput st ("Unknown command: ".toList ++ command)

/-- `Repl._updateInputBufferFromVar`.  The controller only ever passes
names obtained from the definitions table, so a missing definition (which
would throw in JS) defaults to a plain string definition. -/
def updateInputBufferFromVar (st : ReplState) (varName : String)
    (vd : Option VarDef) : ReplState :=
  let value := st.store.get varName
  let formatted := formatValue value (vd.getD { vtype := VType.string })
  { st with inputValue := formatted, inlineBuffer := formatted }

/-- `Repl._applyInputValue`: empty input clears the variable, parse
failures leave it unchanged. -/
def applyInputValue (st : ReplState) (varName : String) (vd : Option VarDef) :
    ReplState :=
  if st.inputValue.isEmpty then { st with store := st.store.set varName Value.undef }
  else
    match vd with
    | some d =>
      match parseValue st.inputValue d with
      | some parsed => { st with store := st.store.set varName parsed }
      | none => st
    | none => st

/-- `Repl._enterVarEditMode`: snapshot the values once (only when no
snapshot is live), switch to INPUT mode, and seed the edit buffer. -/
def enterVarEditMode (st : ReplState) (varName : String) (blank : Bool) : ReplState :=
  let st :=
    if st.originalValues = none
    then { st with originalValues := some (st.store.snapshotValues) }
    else st
  let st := { st with sm := st.sm.toInput varName }
  if blank then { st with inputValue := [], inlineBuffer := [] }
  else updateInputBufferFromVar st varName (st.store.getDef varName)

/-- `Repl._selectVar`: switch the edited variable without touching the
snapshot. -/
def selectVar (st : ReplState) (varName : String) : ReplState :=
  let st := { st with sm := st.sm.toInput varName }
  updateInputBufferFromVar st varName (st.store.getDef varName)

/-- `Repl._handleNormalMode`.  Activity switching on tab (external
multi-activity store) is outside the single-activity model and leaves the
state unchanged. -/
def handleNormalMode (env : Env) (st : ReplState) (k : Key) : ReplState × List Effect :=
  match k with
  | Key.special SpecialKey.escape => ({ st with inlineBuffer := [] }, [])
  | Key.special SpecialKey.tab => (st, [])
  | Key.special SpecialKey.shiftTab => (st, [])
  | Key.char c =>
    if c = ':' then ({ st with sm := st.sm.toCmd }, [])
    else if c = '@' then ({ st with sm := st.sm.toLlm }, [])
    else if c = '!' then ({ st with sm := st.sm.toShell }, [])
    else if c = '%' then ({ st with sm := st.sm.toWord }, [])
    else if c = '#' then
      ({ st with sm := st.sm.toVoice, inlineBuffer := [] },
        [Effect.voiceStart, Effect.flash ("Listening...".toList)])
    else if c = '?' then (st, [Effect.showHelpEff])
    else if c = '$' then
      match st.store.firstVar with
      | some p => (enterVarEditMode st p.1 false, [])
      | none => (st, [])
    else
      match st.store.findByHotkey c with
      | some p => (enterVarEditMode st p.1 true, [])
      | none =>
        if isCommandKey env [c] then execCurrentCommand env st [c]
        else
          ({ st with inlineBuffer := st.inlineBuffer ++ [c], sm := st.sm.appendBuffer c }, [])
  | Key.special SpecialKey.enter =>
    let buffer := st.sm.buffer
    if buffer.isEmpty then
      ({ st with sm := st.sm.toNormal, inlineBuffer := [] }, [])
    else
      let r := execBufferCommand env st buffer
      ({ r.1 with sm := r.1.sm.toNormal, inlineBuffer := [] }, r.2)
  | Key.special SpecialKey.backspace =>
    ({ st with sm := st.sm.backspaceBuffer, inlineBuffer := st.inlineBuffer.dropLast }, [])
  | _ => (st, [])

/-- `Repl._handleCmdMode`.  The history manager is absent from the
repository and outside the spec; navigation is modelled as returning no
entry. -/
def handleCmdMode (st : ReplState) (k : Key) : ReplState × List Effect :=
  match k with
  | Key.special SpecialKey.escape => ({ st with sm := st.sm.toNormal }, [])
  | Key.special SpecialKey.enter =>
    let buffer := st.sm.buffer
    let r := execCmdCommand st buffer
    ({ r.1 with sm := r.1.sm.toNormal }, r.2)
  | Key.arrow ArrowKey.up => (st, [])
  | Key.arrow ArrowKey.down => (st, [])
  | Key.special SpecialKey.backspace => ({ st with sm := st.sm.backspaceBuffer }, [])
  | Key.char c => ({ st with sm := st.sm.appendBuffer c }, [])
  | _ => (st, [])

/-- `Repl._handleInputMode`: escape restores the snapshot and leaves INPUT
mode; enter commits and requests persistence; arrows increment, decrement
or reselect; characters and backspace edit the raw text and live-apply it
through `parseValue`. -/
def handleInputMode (st : ReplState) (k : Key) : ReplState × List Effect :=
  let varName := (st.sm.inputVar).getD ""
  let vd := st.store.getDef varName
  match k with
  | Key.special SpecialKey.escape =>
    let st :=
      match st.originalValues with
      | some snap => { st with store := st.store.restoreValues snap }
      | none => st
    ({ st with
        originalValues := none
        sm := st.sm.toNormal
        inlineBuffer := []
        inputValue := [] }, [])
  | Key.special SpecialKey.enter =>
    ({ st with
        originalValues := none
        sm := st.sm.toNormal
        inlineBuffer := []
        inputValue := [] }, [Effect.persist])
  | Key.arrow ArrowKey.up =>
    let current := st.store.get varName
    let newVal := incrementValue current (vd.getD { vtype := VType.string })
    let st := { st with store := st.store.set varName newVal }
    (updateInputBufferFromVar st varName vd, [])
  | Key.arrow ArrowKey.down =>
    let current := st.store.get varName
    let newVal := decrementValue current (vd.getD { vtype := VType.string })
    let st := { st with store := st.store.set varName newVal }
    (updateInputBufferFromVar st varName vd, [])
  | Key.arrow ArrowKey.left =>
    match st.store.prevVar varName with
    | some p => (selectVar st p.1, [])
    | none => (st, [])
  | Key.arrow ArrowKey.right =>
    match st.store.nextVar varName with
    | some p => (selectVar st p.1, [])
    | none => (st, [])
  | Key.special SpecialKey.backspace =>
    if st.inputValue.isEmpty then (st, [])
    else
      let st := { st with
        inputValue := st.inputValue.dropLast
        inlineBuffer := st.inputValue.dropLast }
      (applyInputValue st varName vd, [])
  | Key.char c =>
    let st := { st with
      inputValue := st.inputValue ++ [c]
      inlineBuffer := st.inputValue ++ [c] }
    (applyInputValue st varName vd, [])
  | _ => (st, [])

/-- `Repl._handleAgentMode`: a placeholder that prints a notice and falls
back to NORMAL. -/
def handleAgentMode (st : ReplState) (k : Key) : ReplState × List Effect :=
  match k with
  | Key.special SpecialKey.escape => ({ st with sm := st.sm.toNormal }, [])
  | _ =>
    let r := addOutput st ("AGENT mode: Not yet implemented".toList)
    ({ r.1 with sm := r.1.sm.toNormal }, r.2)

def isWordDashChar (c : Char) : Bool :=
  c.isAlpha ∨ c.isDigit ∨ c = '_' ∨ c = '-'

/-- The `^@([\w-]+)(?:\s+|$)` agent-prefix match of LLM mode: the agent
word and the already-trimmed prompt after it, when the pattern matches. -/
def agentMatch (l : List Char) : Option (List Char × List Char) :=
  match l with
  | '@' :: r =>
    let w := r.takeWhile isWordDashChar
    if w.isEmpty then none
    else
      match r.dropWhile isWordDashChar with
      | [] => some (w, [])
      | c :: rest =>
        if jsWs c then some (w, trimJs (c :: rest)) else none
  | _ => none

/-- `Repl._handleLlmMode`. -/
def handleLlmMode (env : Env) (st : ReplState) (k : Key) : ReplState × List Effect :=
  match k with
  | Key.special SpecialKey.escape =>
    ({ st with sm := st.sm.toNormal, inlineBuffer := [] }, [])
  | Key.special SpecialKey.enter =>
    let userInput := st.sm.buffer
    if userInput.isEmpty then (st, [])
    else
      match env.llmShell with
      | some _ =>
        let st :=
          match agentMatch userInput with
          | some p => { st with currentAgent := some p.1 }
          | none => st
        let prompt :=
          match agentMatch userInput with
          | some p => p.2
          | none => userInput
        if prompt.isEmpty then
          ({ st with sm := st.sm.clearBuffer, inlineBuffer := [] },
            [Effect.flash ("Agent set to: ".toList ++ (st.currentAgent).getD [])])
        else
          let agent := (st.currentAgent).getD env.defaultAgent
          let displayCommand := '@' :: ' ' :: userInput
          let st := startRound st displayCommand
          let r1 := addOutput st displayCommand
          let st := { r1.1 with sm := r1.1.sm.clearBuffer, inlineBuffer := [] }
          let st := endRound st
          let r2 := addOutput st []
          (r2.1, r1.2 ++ [Effect.execLlm prompt agent] ++ r2.2)
      | none =>
        let r := addOutput st ("Error: llm_shell not configured in config.yml".toList)
        ({ r.1 with sm := r.1.sm.clearBuffer, inlineBuffer := [] }, r.2)
  | Key.arrow ArrowKey.up => (st, [])
  | Key.arrow ArrowKey.down => (st, [])
  | Key.special SpecialKey.backspace =>
    let sm := st.sm.backspaceBuffer
    ({ st with sm := sm, inlineBuffer := sm.buffer }, [])
  | Key.char c =>
    let sm := st.sm.appendBuffer c
    ({ st with sm := sm, inlineBuffer := sm.buffer }, [])
  | _ => (st, [])

/-- `Repl._handleShellMode`. -/
def handleShellMode (st : ReplState) (k : Key) : ReplState × List Effect :=
  match k with
  | Key.special SpecialKey.escape =>
    ({ st with sm := st.sm.toNormal, inlineBuffer := [] }, [])
  | Key.special SpecialKey.enter =>
    let command := st.sm.buffer
    if command.isEmpty then (st, [])
    else
      let displayCommand := '!' :: ' ' :: command
      let st := startRound st displayCommand
      let r1 := addOutput st displayCommand
      let st := { r1.1 with sm := r1.1.sm.clearBuffer, inlineBuffer := [] }
      let st := endRound st
      let r2 := addOutput st []
      (r2.1, r1.2 ++ [Effect.execShell command] ++ r2.2)
  | Key.arrow ArrowKey.up => (st, [])
  | Key.arrow ArrowKey.down => (st, [])
  | Key.special SpecialKey.backspace =>
    let sm := st.sm.backspaceBuffer
    ({ st with sm := sm, inlineBuffer := sm.buffer }, [])
  | Key.char c =>
    let sm := st.sm.appendBuffer c
    ({ st with sm := sm, inlineBuffer := sm.buffer }, [])
  | _ => (st, [])

def findCommandByWord (env : Env) (word : List Char) : Option (List Char) :=
  (env.words.find? (fun p => p.1 = word)).map Prod.snd

/-- `Repl._handleWordMode`. -/
def handleWordMode (env : Env) (st : ReplState) (k : Key) : ReplState × List Effect :=
  match k with
  | Key.special SpecialKey.escape =>
    ({ st with sm := st.sm.toNormal, inlineBuffer := [] }, [])
  | Key.special SpecialKey.enter =>
    let word := (trimJs st.sm.buffer).map Char.toLower
    if word.isEmpty then (st, [])
    else
      match findCommandByWord env word with
      | some key =>
        let st := { st with sm := st.sm.clearBuffer, inlineBuffer := [] }
        execCurrentCommand env st key
      | none =>
        ({ st with sm := st.sm.clearBuffer, inlineBuffer := [] },
          [Effect.flash ("No command for word: ".toList ++ word)])
  | Key.arrow ArrowKey.up => (st, [])
  | Key.arrow ArrowKey.down => (st, [])
  | Key.special SpecialKey.backspace =>
    let sm := st.sm.backspaceBuffer
    ({ st with sm := sm, inlineBuffer := sm.buffer }, [])
  | Key.char c =>
    let sm := st.sm.appendBuffer c
    ({ st with sm := sm, inlineBuffer := sm.buffer }, [])
  | _ => (st, [])

/-- `Repl._handleVoiceMode`: only escape is honoured; it stops the
listener. -/
def handleVoiceMode (st : ReplState) (k : Key) : ReplState × List Effect :=
  match k with
  | Key.special SpecialKey.escape =>
    ({ st with sm := st.sm.toNormal, inlineBuffer := [] }, [Effect.voiceStop])
  | _ => (st, [])

/-- `Repl._handleCtrlXCombo`: only the `u` combo (undo last round) exists. -/
def handleCtrlXCombo (st : ReplState) (c : Char) : ReplState × List Effect × Bool :=
  if c = 'u' then
    let r := undoLastRoundAction st
    (r.1, r.2, true)
  else (st, [], false)

/-- `Repl._handleKey`: the top of the key pipeline.  The exit-confirmation
counter resets on every key that is not Ctrl+C; a pending Ctrl+X combo
consumes the next key; Ctrl+C first offers the interrupt to the signal
module and only counts toward exit confirmation when no child is running;
Ctrl+D stops; Ctrl+L clears; everything else goes to the active mode
handler. -/
def handleKey (env : Env) (st : ReplState) (k : Key) : ReplState × List Effect :=
  if ¬ st.running then (st, [])
  else
    let st := if ¬ (k = Key.ctrl 'c') then { st with exitPressCount := 0 } else st
    if st.awaitingCtrlXCombo then
      let st := { st with awaitingCtrlXCombo := false }
      match k with
      | Key.char c =>
        let r := handleCtrlXCombo st c
        (r.1, r.2.1)
      | _ => (st, [])
    else if k = Key.ctrl 'x' then ({ st with awaitingCtrlXCombo := true }, [])
    else if k = Key.ctrl 'c' then
      let r := handleInterrupt st.sig
      let st := { st with sig := r.1 }
      if r.2.1 then (st, r.2.2.map Effect.sig)
      else
        let st := { st with exitPressCount := st.exitPressCount + 1 }
        if 2 ≤ st.exitPressCount then stopReplAction st
        else (st, [Effect.flash ("Press Ctrl+C again to exit".toList),
          Effect.scheduleExitReset])
    else if k = Key.ctrl 'd' then stopReplAction st
    else if k = Key.ctrl 'l' then (st, [Effect.clearScreenEff])
    else
      match st.sm.mode with
      | Mode.normal => handleNormalMode env st k
      | Mode.cmd => handleCmdMode st k
      | Mode.input => handleInputMode st k
      | Mode.agent => handleAgentMode st k
      | Mode.llm => handleLlmMode env st k
      | Mode.shell => handleShellMode st k
      | Mode.word => handleWordMode env st k
      | Mode.voice => handleVoiceMode st k

/-- The body of the one-second timeout scheduled after a first bare Ctrl+C:
it resets the exit-confirmation counter. -/
def exitTimeoutFired (st : ReplState) : ReplState :=
  { st with exitPressCount := 0 }

/-- `Repl._handleJog`: jog events apply increment or decrement while INPUT
mode is active and are discarded in every other mode. -/
def handleJog (st : ReplState) (cw : Bool) : ReplState :=
  if st.sm.mode ≠ Mode.input then st
  else
    match st.sm.inputVar with
    | none => st
    | some varName =>
      match st.store.getDef varName with
      | none => st
      | some vd =>
        let current := st.store.get varName
        let newVal := if cw then incrementValue current vd else decrementValue current vd
        updateInputBufferFromVar { st with store := st.store.set varName newVal }
          varName (some vd)

/-- Run a list of key events through the controller, collecting effects. -/
def runKeys (env : Env) (st : ReplState) (ks : List Key) : ReplState × List Effect :=
  ks.foldl
    (fun acc k =>
      let r := handleKey env acc.1 k
      (r.1, acc.2 ++ r.2))
    (st, [])

/-! ## In-mode edit keys and concrete demonstration data -/

/-- The INPUT-mode edit keys of §4.5: typed characters, backspace, and the
four arrows (increment, decrement and variable reselection). -/
def editKey : Key → Bool
  | Key.char _ => true
  | Key.arrow _ => true
  | Key.special SpecialKey.backspace => true
  | _ => false

/-- The CSI final byte of each arrow key, as compared by `parseKey`. -/
def arrowFinal : ArrowKey → Char
  | ArrowKey.up => 'A'
  | ArrowKey.down => 'B'
  | ArrowKey.left => 'D'
  | ArrowKey.right => 'C'

/-- The `QTY` activity variable of the spec's scenarios:
`type:int, range:[1,100], step:1, value:10`, hotkey `q`. -/
def qtyDef : VarDef :=
  { vtype := VType.int
    range := some [Value.num ⟨1, 0⟩, Value.num ⟨100, 0⟩]
    step := some (⟨1, 0⟩ : Dec)
    hotkey := some 'q'
    value := some (Value.num ⟨10, 0⟩) }

/-- An enum variable over `[call, put]`. -/
def enumDef : VarDef :=
  { vtype := VType.enum
    range := some [Value.str ("call".toList), Value.str ("put".toList)] }

/-- An int variable with no format string. -/
def intPlainDef : VarDef := { vtype := VType.int }

/-- An int variable whose display format is hexadecimal. -/
def hexIntDef : VarDef := { vtype := VType.int, format := some ("%x".toList) }

/-- A one-variable store holding `QTY = 10`. -/
def demoStore : Store := ⟨[("QTY", qtyDef)], [("QTY", Value.num ⟨10, 0⟩)]⟩

/-- Collaborators with no activity commands and no word bindings. -/
def demoEnv : Env := ⟨[], [], none, [], fun t _ => t⟩

/-- A freshly started REPL over `demoStore`: NORMAL mode, no child process,
no pending combo, an empty round log. -/
def demoState : ReplState :=
  ⟨true, ModeSM.init, demoStore, ⟨none, 0, false⟩, [], [], none, false, none,
    none, 0, [], false⟩

/-- The same REPL with one completed round in the log. -/
def demoRoundsState : ReplState := { demoState with rounds := [⟨['l', 's'], 2⟩] }

/-! ## Theorems -/

theorem natToCharsAux_irrel :
    ∀ (f g n : Nat), n < f → n < g → natToCharsAux f n = natToCharsAux g n := by
  intro f
  induction f with
  | zero => intro g n hf _; omega
  | succ f ih =>
    intro g n hf hg
    cases g with
    | zero => omega
    | succ g =>
      by_cases hlt : n < 10
      · simp [natToCharsAux, hlt]
      · simp only [natToCharsAux, if_neg hlt]
        congr 1
        exact ih g (n / 10) (by omega) (by omega)

/-! ## Digit-string round trip lemmas -/

theorem natToChars_eq_of_lt {n : Nat} (h : n < 10) : natToChars n = [digitChar n] := by
  simp [natToChars, natToCharsAux, h]

theorem natToChars_eq_of_ge {n : Nat} (h : ¬ n < 10) :
    natToChars n = natToChars (n / 10) ++ [digitChar (n % 10)] := by
  unfold natToChars
  simp only [natToCharsAux, if_neg h]
  congr 1
  exact natToCharsAux_irrel n (n / 10 + 1) (n / 10) (by omega) (by omega)

theorem charsToNat_append (xs ys : List Char) :
    charsToNat (xs ++ ys) =
      charsToNat xs * 10 ^ ys.length + charsToNat ys := by
  induction ys using List.reverseRecOn with
  | nil => simp [charsToNat]
  | append_singleton ys y ih =>
    simp only [charsToNat, ← List.append_assoc, List.foldl_append, List.foldl_cons,
      List.foldl_nil, List.length_append, List.length_cons, List.length_nil] at *
    rw [ih]
    ring

theorem digitVal_digitChar {n : Nat} (h : n < 10) : digitVal (digitChar n) = n := by
  interval_cases n <;> rfl

theorem charsToNat_natToChars (n : Nat) : charsToNat (natToChars n) = n := by
  induction n using Nat.strong_induction_on with
  | _ n ih =>
    by_cases h : n < 10
    · rw [natToChars_eq_of_lt h]
      simp [charsToNat, digitVal_digitChar h]
    · rw [natToChars_eq_of_ge h, charsToNat_append]
      have hd : n / 10 < n :=
        Nat.div_lt_self (by omega) (by omega)
      rw [ih _ hd]
      simp [charsToNat, digitVal_digitChar (Nat.mod_lt _ (by omega))]
      omega

theorem digitChar_isDigit {n : Nat} (h : n < 10) : (digitChar n).isDigit = true := by
  interval_cases n <;> rfl

theorem natToChars_all_digits (n : Nat) :
    ∀ c ∈ natToChars n, c.isDigit = true := by
  induction n using Nat.strong_induction_on with
  | _ n ih =>
    by_cases h : n < 10
    · rw [natToChars_eq_of_lt h]
      intro c hc
      simp at hc
      subst hc
      exact digitChar_isDigit h
    · rw [natToChars_eq_of_ge h]
      intro c hc
      rcases List.mem_append.mp hc with h1 | h2
      · exact ih _ (Nat.div_lt_self (by omega) (by omega)) c h1
      · simp at h2
        subst h2
        exact digitChar_isDigit (Nat.mod_lt _ (by omega))

theorem natToChars_ne_nil (n : Nat) : natToChars n ≠ [] := by
  by_cases h : n < 10
  · rw [natToChars_eq_of_lt h]; simp
  · rw [natToChars_eq_of_ge h]; simp

theorem natToChars_length_le {n k : Nat} (hn : n < 10 ^ k) (hk : 1 ≤ k) :
    (natToChars n).length ≤ k := by
  induction k generalizing n with
  | zero => omega
  | succ k ih =>
    by_cases h : n < 10
    · rw [natToChars_eq_of_lt h]; simp
    · rw [natToChars_eq_of_ge h]
      have hk1 : 1 ≤ k := by
        rcases Nat.eq_zero_or_pos k with h0 | h1
        · subst h0
          have : n < 10 := by simpa using hn
          omega
        · exact h1
      have : n / 10 < 10 ^ k := by
        rw [Nat.div_lt_iff_lt_mul (by omega)]
        calc n < 10 ^ (k + 1) := hn
        _ = 10 ^ k * 10 := by ring
      have := ih this hk1
      simp [List.length_append]
      omega

theorem takeWhile_cons_pos {α} (p : α → Bool) (a : α) (l : List α) (h : p a = true) :
    (a :: l).takeWhile p = a :: l.takeWhile p := by
  simp [List.takeWhile, h]

theorem takeWhile_cons_neg {α} (p : α → Bool) (a : α) (l : List α) (h : p a = false) :
    (a :: l).takeWhile p = [] := by
  simp [List.takeWhile, h]

theorem dropWhile_cons_pos {α} (p : α → Bool) (a : α) (l : List α) (h : p a = true) :
    (a :: l).dropWhile p = l.dropWhile p := by
  simp [List.dropWhile, h]

theorem dropWhile_cons_neg {α} (p : α → Bool) (a : α) (l : List α) (h : p a = false) :
    (a :: l).dropWhile p = a :: l := by
  simp [List.dropWhile, h]

theorem takeWhile_append_all {α} (p : α → Bool) {l : List α} (r : List α)
    (h : ∀ a ∈ l, p a = true) : (l ++ r).takeWhile p = l ++ r.takeWhile p := by
  induction l with
  | nil => simp
  | cons a l ih =>
    have ha : p a = true := h a (by simp)
    simp only [List.cons_append, takeWhile_cons_pos _ _ _ ha]
    rw [ih (fun b hb => h b (by simp [hb]))]

theorem dropWhile_append_all {α} (p : α → Bool) {l : List α} (r : List α)
    (h : ∀ a ∈ l, p a = true) : (l ++ r).dropWhile p = r.dropWhile p := by
  induction l with
  | nil => simp
  | cons a l ih =>
    have ha : p a = true := h a (by simp)
    simp only [List.cons_append, dropWhile_cons_pos _ _ _ ha]
    exact ih (fun b hb => h b (by simp [hb]))

theorem takeWhile_eq_self_all {α} (p : α → Bool) {l : List α}
    (h : ∀ a ∈ l, p a = true) : l.takeWhile p = l := by
  have := takeWhile_append_all p [] h
  simpa using this

theorem dropWhile_eq_nil_all {α} (p : α → Bool) {l : List α}
    (h : ∀ a ∈ l, p a = true) : l.dropWhile p = [] := by
  have := dropWhile_append_all p [] h
  simpa using this

theorem charsToNat_replicate_zero (k : Nat) :
    charsToNat (List.replicate k '0') = 0 := by
  induction k with
  | zero => rfl
  | succ k ih =>
    have : List.replicate (k + 1) '0' = '0' :: List.replicate k '0' := rfl
    rw [this]
    simpa [charsToNat, digitVal] using ih

theorem charsToNat_padZeros (l : List Char) (k : Nat) :
    charsToNat (padZeros l k) = charsToNat l := by
  unfold padZeros
  rw [charsToNat_append, charsToNat_replicate_zero]
  simp

theorem padZeros_length {l : List Char} {k : Nat} (h : l.length ≤ k) :
    (padZeros l k).length = k := by
  unfold padZeros
  simp [List.length_append, List.length_replicate]
  omega

theorem padZeros_all_digits {l : List Char} (k : Nat)
    (h : ∀ c ∈ l, c.isDigit = true) : ∀ c ∈ padZeros l k, c.isDigit = true := by
  intro c hc
  unfold padZeros at hc
  rcases List.mem_append.mp hc with h1 | h2
  · have := List.eq_of_mem_replicate h1
    subst this
    decide
  · exact h c h2

theorem isDigit_ne_plus {c : Char} (h : c.isDigit = true) : ¬ c = '+' := by
  rintro rfl; exact absurd h (by decide)

theorem isDigit_ne_minus {c : Char} (h : c.isDigit = true) : ¬ c = '-' := by
  rintro rfl; exact absurd h (by decide)

theorem jsWs_of_isDigit {c : Char} (h : c.isDigit = true) : jsWs c = false := by
  have h1 : ¬ c = ' ' := by rintro rfl; exact absurd h (by decide)
  have h2 : ¬ c = '\t' := by rintro rfl; exact absurd h (by decide)
  have h3 : ¬ c = '\n' := by rintro rfl; exact absurd h (by decide)
  have h4 : ¬ c = '\r' := by rintro rfl; exact absurd h (by decide)
  simp [jsWs, h1, h2, h3, h4]

theorem splitSign_minus (r : List Char) : splitSign ('-' :: r) = (true, r) := by
  simp [splitSign]

theorem splitSign_cons_digit {c : Char} (cs : List Char) (h : c.isDigit = true) :
    splitSign (c :: cs) = (false, c :: cs) := by
  simp only [splitSign]
  rw [if_neg (isDigit_ne_plus h), if_neg (isDigit_ne_minus h)]

theorem natToChars_isEmpty_false (n : Nat) : (natToChars n).isEmpty = false := by
  obtain ⟨c, cs, hc⟩ := List.exists_cons_of_ne_nil (natToChars_ne_nil n)
  rw [hc]; rfl

/-- Leading whitespace skipping leaves a digit string untouched. -/
theorem dropWhile_jsWs_natToChars (n : Nat) :
    (natToChars n).dropWhile jsWs = natToChars n := by
  obtain ⟨c, cs, hc⟩ := List.exists_cons_of_ne_nil (natToChars_ne_nil n)
  have hdig : c.isDigit = true := natToChars_all_digits _ c (by rw [hc]; simp)
  rw [hc, dropWhile_cons_neg _ _ _ (jsWs_of_isDigit hdig)]

theorem splitSign_natToChars (n : Nat) :
    splitSign (natToChars n) = (false, natToChars n) := by
  obtain ⟨c, cs, hc⟩ := List.exists_cons_of_ne_nil (natToChars_ne_nil n)
  have hdig : c.isDigit = true := natToChars_all_digits _ c (by rw [hc]; simp)
  rw [hc, splitSign_cons_digit _ hdig]

/-- JS integer printing and `parseInt` round-trip. -/
theorem parseIntJs_intToChars (i : Int) : parseIntJs (intToChars i) = some i := by
  unfold intToChars
  by_cases hneg : i < 0
  · simp only [hneg, if_true, parseIntJs]
    rw [dropWhile_cons_neg _ _ _ (by decide), splitSign_minus]
    simp [takeWhile_eq_self_all _ (natToChars_all_digits _),
      natToChars_isEmpty_false, charsToNat_natToChars]
    rw [abs_of_neg hneg]
    ring
  · simp only [hneg, if_false, parseIntJs]
    rw [dropWhile_jsWs_natToChars, splitSign_natToChars]
    simp [takeWhile_eq_self_all _ (natToChars_all_digits _),
      natToChars_isEmpty_false, charsToNat_natToChars]
    omega

theorem decOfParts_zero_exp (m : Int) (k : Nat) :
    decOfParts m k 0 = normDec m k := by
  unfold decOfParts
  rcases Nat.eq_zero_or_pos k with h0 | h1
  · subst h0
    simp [normDec]
  · rw [if_neg (by omega)]
    have h2 : (((k : Int) - 0)).toNat = k := by omega
    rw [h2]

theorem parseFloatJs_natToChars (n : Nat) :
    parseFloatJs (natToChars n) = some ⟨(n : Int), 0⟩ := by
  simp only [parseFloatJs]
  rw [dropWhile_jsWs_natToChars, splitSign_natToChars]
  simp only
  rw [takeWhile_eq_self_all _ (natToChars_all_digits _),
    dropWhile_eq_nil_all _ (natToChars_all_digits _)]
  simp [fracPart, natToChars_isEmpty_false, charsToNat_natToChars,
    parseExpPart, decOfParts_zero_exp, normDec]

theorem parseFloatJs_minus_natToChars (n : Nat) :
    parseFloatJs ('-' :: natToChars n) = some ⟨-(n : Int), 0⟩ := by
  simp only [parseFloatJs]
  rw [dropWhile_cons_neg _ _ _ (by decide), splitSign_minus]
  simp only
  rw [takeWhile_eq_self_all _ (natToChars_all_digits _),
    dropWhile_eq_nil_all _ (natToChars_all_digits _)]
  simp [fracPart, natToChars_isEmpty_false, charsToNat_natToChars,
    parseExpPart, decOfParts_zero_exp, normDec]

/-- Parsing the plain-notation printing of a decimal value with a fractional
part recovers the canonical form of that value. -/
theorem parseFloatJs_decChars_frac (m : Int) (E : Nat) :
    parseFloatJs (decChars ⟨m, E + 1⟩) = some (normDec m (E + 1)) := by
  have hpow : 0 < 10 ^ (E + 1) := by positivity
  have hBlt : m.natAbs % 10 ^ (E + 1) < 10 ^ (E + 1) := Nat.mod_lt _ hpow
  have hlen : (natToChars (m.natAbs % 10 ^ (E + 1))).length ≤ E + 1 :=
    natToChars_length_le hBlt (by omega)
  have hfrdig : ∀ c ∈ padZeros (natToChars (m.natAbs % 10 ^ (E + 1))) (E + 1),
      c.isDigit = true :=
    padZeros_all_digits _ (natToChars_all_digits _)
  have hfrac : fracPart ('.' :: padZeros (natToChars (m.natAbs % 10 ^ (E + 1))) (E + 1)) =
      (padZeros (natToChars (m.natAbs % 10 ^ (E + 1))) (E + 1), []) := by
    simp [fracPart, takeWhile_eq_self_all _ hfrdig, dropWhile_eq_nil_all _ hfrdig]
  have hval : charsToNat
      (natToChars (m.natAbs / 10 ^ (E + 1)) ++
        padZeros (natToChars (m.natAbs % 10 ^ (E + 1))) (E + 1)) = m.natAbs := by
    rw [charsToNat_append, padZeros_length hlen, charsToNat_padZeros,
      charsToNat_natToChars, charsToNat_natToChars]
    exact Nat.div_add_mod' _ _
  by_cases hm : m < 0
  · have hchars : decChars ⟨m, E + 1⟩ =
        '-' :: (natToChars (m.natAbs / 10 ^ (E + 1)) ++
          '.' :: padZeros (natToChars (m.natAbs % 10 ^ (E + 1))) (E + 1)) := by
      simp [decChars, hm]
    simp only [parseFloatJs, hchars]
    rw [dropWhile_cons_neg _ _ _ (by decide), splitSign_minus]
    simp only
    rw [takeWhile_append_all _ _ (natToChars_all_digits _),
      takeWhile_cons_neg _ _ _ (by decide),
      dropWhile_append_all _ _ (natToChars_all_digits _),
      dropWhile_cons_neg _ _ _ (by decide), hfrac]
    simp only [List.append_nil, natToChars_isEmpty_false, Bool.false_eq_true,
      false_and, if_false, if_true, parseExpPart, padZeros_length hlen]
    rw [hval, decOfParts_zero_exp]
    have : -((m.natAbs : Int)) = m := by omega
    rw [this]
  · have hchars : decChars ⟨m, E + 1⟩ =
        natToChars (m.natAbs / 10 ^ (E + 1)) ++
          '.' :: padZeros (natToChars (m.natAbs % 10 ^ (E + 1))) (E + 1) := by
      simp [decChars, hm]
    obtain ⟨c, cs, hc⟩ := List.exists_cons_of_ne_nil (natToChars_ne_nil (m.natAbs / 10 ^ (E + 1)))
    have hdig : c.isDigit = true := natToChars_all_digits _ c (by rw [hc]; simp)
    simp only [parseFloatJs, hchars]
    rw [hc]
    simp only [List.cons_append]
    rw [dropWhile_cons_neg _ _ _ (jsWs_of_isDigit hdig),
      splitSign_cons_digit _ hdig]
    simp only
    rw [← List.cons_append, ← hc]
    rw [takeWhile_append_all _ _ (natToChars_all_digits _),
      takeWhile_cons_neg _ _ _ (by decide),
      dropWhile_append_all _ _ (natToChars_all_digits _),
      dropWhile_cons_neg _ _ _ (by decide), hfrac]
    simp only [List.append_nil, natToChars_isEmpty_false, Bool.false_eq_true,
      false_and, if_false, parseExpPart, padZeros_length hlen]
    rw [hval, decOfParts_zero_exp]
    have : ((m.natAbs : Int)) = m := by omega
    rw [this]

/-- JS `String()` printing of a number and `parseFloat` round-trip, for a
decimal value in canonical form. -/
theorem parseFloatJs_decChars {d : Dec} (h : d.normal) :
    parseFloatJs (decChars d) = some d := by
  obtain ⟨m, e⟩ := d
  cases e with
  | zero =>
    have hchars : decChars ⟨m, 0⟩ = intToChars m := by
      simp [decChars]
    rw [hchars]
    unfold intToChars
    by_cases hm : m < 0
    · rw [if_pos hm, parseFloatJs_minus_natToChars]
      have hcast : -((m.natAbs : Int)) = m := by omega
      rw [hcast]
    · rw [if_neg hm, parseFloatJs_natToChars]
      have hcast : ((m.toNat : Int)) = m := by omega
      rw [hcast]
  | succ E =>
    rw [parseFloatJs_decChars_frac]
    exact congrArg some h

theorem scanCSI_rest_len (l : List Char) : (scanCSI l).2.2.length ≤ l.length := by
  induction l with
  | nil => simp [scanCSI]
  | cons c rest ih =>
    simp only [scanCSI]
    by_cases h : isParamByte c
    · simp only [h, if_true]
      simp
      omega
    · simp only [h, Bool.false_eq_true, if_false]
      simp

theorem splitChunksAux_irrel :
    ∀ (f g : Nat) (s : List Char), s.length ≤ f → s.length ≤ g →
      splitChunksAux f s = splitChunksAux g s := by
  intro f
  induction f with
  | zero =>
    intro g s hf _
    have : s = [] := List.length_eq_zero.mp (by omega)
    subst this
    cases g <;> rfl
  | succ f ih =>
    intro g s hf hg
    cases g with
    | zero =>
      have : s = [] := List.length_eq_zero.mp (by omega)
      subst this
      rfl
    | succ g =>
      cases s with
      | nil => rfl
      | cons c rest =>
        simp only [List.length_cons] at hf hg
        by_cases hc : c = escChar
        · subst hc
          cases rest with
          | nil =>
            simp only [splitChunksAux, reduceIte]
            rw [ih g [] (Nat.zero_le f) (Nat.zero_le g)]
          | cons c2 rest2 =>
            simp only [List.length_cons] at hf hg
            by_cases hc2 : c2 = '['
            · subst hc2
              simp only [splitChunksAux, reduceIte]
              have hlen := scanCSI_rest_len rest2
              rw [ih g ((scanCSI rest2).2.2) (by omega) (by omega)]
            · simp only [splitChunksAux, reduceIte]
              rw [if_neg hc2, if_neg hc2,
                ih g (c2 :: rest2) (by simp only [List.length_cons]; omega)
                  (by simp only [List.length_cons]; omega)]
        · simp only [splitChunksAux]
          rw [if_neg hc, if_neg hc, ih g rest (by omega) (by omega)]

theorem splitChunks_nil : splitChunks [] = [] := rfl

theorem splitChunks_cons_other {c : Char} (rest : List Char) (h : ¬ c = escChar) :
    splitChunks (c :: rest) = [c] :: splitChunks rest := by
  show splitChunksAux (c :: rest).length (c :: rest) = [c] :: splitChunksAux rest.length rest
  simp only [List.length_cons, splitChunksAux]
  rw [if_neg h]

theorem splitChunks_esc_nil : splitChunks [escChar] = [[escChar]] := rfl

theorem splitChunks_esc_cons {c2 : Char} (rest2 : List Char) (h : ¬ c2 = '[') :
    splitChunks (escChar :: c2 :: rest2) = [escChar] :: splitChunks (c2 :: rest2) := by
  show splitChunksAux (escChar :: c2 :: rest2).length (escChar :: c2 :: rest2) =
    [escChar] :: splitChunksAux (c2 :: rest2).length (c2 :: rest2)
  simp only [List.length_cons, splitChunksAux, reduceIte]
  rw [if_neg h]

theorem splitChunks_csi (rest2 : List Char) :
    splitChunks (escChar :: '[' :: rest2) =
      csiChunk (scanCSI rest2) :: splitChunks (scanCSI rest2).2.2 := by
  show csiChunk (scanCSI rest2) :: splitChunksAux (rest2.length + 1) ((scanCSI rest2).2.2) =
    csiChunk (scanCSI rest2) :: splitChunksAux ((scanCSI rest2).2.2.length) ((scanCSI rest2).2.2)
  have hlen := scanCSI_rest_len rest2
  rw [splitChunksAux_irrel (rest2.length + 1) ((scanCSI rest2).2.2.length)
    ((scanCSI rest2).2.2) (by omega) (le_refl _)]

theorem chunkCompleteAux_irrel :
    ∀ (f g : Nat) (s : List Char), s.length ≤ f → s.length ≤ g →
      chunkCompleteAux f s = chunkCompleteAux g s := by
  intro f
  induction f with
  | zero =>
    intro g s hf _
    have : s = [] := List.length_eq_zero.mp (by omega)
    subst this
    cases g <;> rfl
  | succ f ih =>
    intro g s hf hg
    cases g with
    | zero =>
      have : s = [] := List.length_eq_zero.mp (by omega)
      subst this
      rfl
    | succ g =>
      cases s with
      | nil => rfl
      | cons c rest =>
        simp only [List.length_cons] at hf hg
        by_cases hc : c = escChar
        · subst hc
          cases rest with
          | nil => rfl
          | cons c2 rest2 =>
            simp only [List.length_cons] at hf hg
            by_cases hc2 : c2 = '['
            · subst hc2
              simp only [chunkCompleteAux, reduceIte]
              cases hsc : (scanCSI rest2).2.1 with
              | some fc =>
                simp only
                have hlen := scanCSI_rest_len rest2
                exact ih g ((scanCSI rest2).2.2) (by omega) (by omega)
              | none => rfl
            · simp only [chunkCompleteAux, reduceIte]
              rw [if_neg hc2, if_neg hc2,
                ih g (c2 :: rest2) (by simp only [List.length_cons]; omega)
                  (by simp only [List.length_cons]; omega)]
        · simp only [chunkCompleteAux]
          rw [if_neg hc, if_neg hc, ih g rest (by omega) (by omega)]

theorem chunkComplete_cons_other {c : Char} (rest : List Char) (h : ¬ c = escChar) :
    chunkComplete (c :: rest) = chunkComplete rest := by
  show chunkCompleteAux (c :: rest).length (c :: rest) = chunkCompleteAux rest.length rest
  simp only [List.length_cons, chunkCompleteAux]
  rw [if_neg h]

theorem chunkComplete_esc_nil : chunkComplete [escChar] = false := rfl

theorem chunkComplete_esc_cons {c2 : Char} (rest2 : List Char) (h : ¬ c2 = '[') :
    chunkComplete (escChar :: c2 :: rest2) = chunkComplete (c2 :: rest2) := by
  show chunkCompleteAux (escChar :: c2 :: rest2).length (escChar :: c2 :: rest2) =
    chunkCompleteAux (c2 :: rest2).length (c2 :: rest2)
  simp only [List.length_cons, chunkCompleteAux, reduceIte]
  rw [if_neg h]

theorem chunkComplete_csi_some (rest2 : List Char) {fc : Char}
    (h : (scanCSI rest2).2.1 = some fc) :
    chunkComplete (escChar :: '[' :: rest2) = chunkComplete (scanCSI rest2).2.2 := by
  have step : chunkComplete (escChar :: '[' :: rest2) =
      (match (scanCSI rest2).2.1 with
       | some _ => chunkCompleteAux (rest2.length + 1) (scanCSI rest2).2.2
       | none => false) := rfl
  rw [step, h]
  have hlen := scanCSI_rest_len rest2
  exact chunkCompleteAux_irrel (rest2.length + 1) ((scanCSI rest2).2.2.length)
    ((scanCSI rest2).2.2) (by omega) (le_refl _)

theorem chunkComplete_csi_none (rest2 : List Char)
    (h : (scanCSI rest2).2.1 = none) :
    chunkComplete (escChar :: '[' :: rest2) = false := by
  have step : chunkComplete (escChar :: '[' :: rest2) =
      (match (scanCSI rest2).2.1 with
       | some _ => chunkCompleteAux (rest2.length + 1) (scanCSI rest2).2.2
       | none => false) := rfl
  rw [step, h]

theorem scanCSI_cons_param {c : Char} (rest : List Char) (hp : isParamByte c = true) :
    scanCSI (c :: rest) =
      (c :: (scanCSI rest).1, (scanCSI rest).2.1, (scanCSI rest).2.2) := by
  simp [scanCSI, hp]

theorem scanCSI_cons_final {c : Char} (rest : List Char) (hp : ¬ isParamByte c = true) :
    scanCSI (c :: rest) = ([], some c, rest) := by
  simp [scanCSI, hp]

/-- A CSI scan that found its final byte is unaffected by appending further
input: the boundary after the sequence is outside it. -/
theorem scanCSI_append {l : List Char} {fc : Char} (t : List Char)
    (h : (scanCSI l).2.1 = some fc) :
    scanCSI (l ++ t) = ((scanCSI l).1, some fc, (scanCSI l).2.2 ++ t) := by
  induction l with
  | nil => simp [scanCSI] at h
  | cons c rest ih =>
    by_cases hp : isParamByte c = true
    · have hr : (scanCSI rest).2.1 = some fc := by
        rw [scanCSI_cons_param rest hp] at h
        exact h
      show scanCSI (c :: (rest ++ t)) = _
      rw [scanCSI_cons_param (rest ++ t) hp, ih hr, scanCSI_cons_param rest hp]
    · rw [scanCSI_cons_final rest hp] at h
      have hfc : fc = c := by
        injection h with h2
        exact h2.symm
      rw [hfc]
      show scanCSI (c :: (rest ++ t)) = _
      rw [scanCSI_cons_final (rest ++ t) hp, scanCSI_cons_final rest hp]

/-- Chunk splitting is a homomorphism over boundaries that do not fall
inside an escape sequence: a complete chunk splits independently of what
follows it. -/
theorem splitChunks_append :
    ∀ (n : Nat) (s t : List Char), s.length ≤ n → chunkComplete s = true →
      splitChunks (s ++ t) = splitChunks s ++ splitChunks t := by
  intro n
  induction n with
  | zero =>
    intro s t hl _
    have : s = [] := List.length_eq_zero.mp (by omega)
    subst this
    simp [splitChunks_nil]
  | succ n ih =>
    intro s t hl hc
    cases s with
    | nil => simp [splitChunks_nil]
    | cons c rest =>
      simp only [List.length_cons] at hl
      by_cases hesc : c = escChar
      · subst hesc
        cases rest with
        | nil => rw [chunkComplete_esc_nil] at hc; exact absurd hc (by simp)
        | cons c2 rest2 =>
          simp only [List.length_cons] at hl
          by_cases hb : c2 = '['
          · subst hb
            cases hsc : (scanCSI rest2).2.1 with
            | none => rw [chunkComplete_csi_none rest2 hsc] at hc; exact absurd hc (by simp)
            | some fc =>
              rw [chunkComplete_csi_some rest2 hsc] at hc
              have hlen := scanCSI_rest_len rest2
              show splitChunks (escChar :: '[' :: (rest2 ++ t)) = _
              rw [splitChunks_csi (rest2 ++ t), splitChunks_csi rest2,
                scanCSI_append t hsc]
              simp only [csiChunk, hsc]
              rw [ih ((scanCSI rest2).2.2) t (by omega) hc]
              simp
          · rw [chunkComplete_esc_cons rest2 hb] at hc
            show splitChunks (escChar :: c2 :: (rest2 ++ t)) = _
            rw [splitChunks_esc_cons (rest2 ++ t) hb, splitChunks_esc_cons rest2 hb]
            have : (c2 :: rest2) ++ t = c2 :: (rest2 ++ t) := rfl
            rw [← this, ih (c2 :: rest2) t (by simp only [List.length_cons]; omega) hc]
            simp
      · rw [chunkComplete_cons_other rest hesc] at hc
        show splitChunks (c :: (rest ++ t)) = _
        rw [splitChunks_cons_other (rest ++ t) hesc, splitChunks_cons_other rest hesc,
          ih rest t (by omega) hc]
        simp

/-- Decoding is a homomorphism over complete-chunk boundaries. -/
theorem decodeChunk_append (s t : List Char) (hc : chunkComplete s = true) :
    decodeChunk (s ++ t) = decodeChunk s ++ decodeChunk t := by
  unfold decodeChunk
  rw [splitChunks_append s.length s t (le_refl _) hc]
  simp

/-- Delivering a stream as several chunks whose boundaries are never inside
an escape sequence yields the same events as delivering it whole. -/
theorem decodeChunks_eq_decodeChunk :
    ∀ (chunks : List (List Char)),
      (∀ c ∈ chunks.dropLast, chunkComplete c = true) →
      decodeChunks chunks = decodeChunk chunks.flatten := by
  intro chunks
  induction chunks with
  | nil => intro _; rfl
  | cons c rest ih =>
    intro h
    cases rest with
    | nil =>
      simp [decodeChunks, decodeChunk]
    | cons c2 rest2 =>
      have hc : chunkComplete c = true := by
        apply h
        simp [List.dropLast]
      have hrest : ∀ x ∈ (c2 :: rest2).dropLast, chunkComplete x = true := by
        intro x hx
        apply h
        simp only [List.dropLast_cons_of_ne_nil (by simp : (c2 :: rest2) ≠ [])]
        exact List.mem_cons_of_mem _ hx
      show decodeChunks (c :: c2 :: rest2) = decodeChunk ((c :: c2 :: rest2).flatten)
      have hflat : (c :: c2 :: rest2).flatten = c ++ (c2 :: rest2).flatten := rfl
      rw [hflat, decodeChunk_append _ _ hc, ← ih hrest]
      rfl

/-! ## Frame lemmas for the controller -/

theorem addLinesToCurrentRound_frame (st : ReplState) (n : Nat) :
    (addLinesToCurrentRound st n).running = st.running ∧
    (addLinesToCurrentRound st n).sm = st.sm ∧
    (addLinesToCurrentRound st n).store = st.store ∧
    (addLinesToCurrentRound st n).originalValues = st.originalValues ∧
    (addLinesToCurrentRound st n).awaitingCtrlXCombo = st.awaitingCtrlXCombo ∧
    (addLinesToCurrentRound st n).exitPressCount = st.exitPressCount := by
  unfold addLinesToCurrentRound
  split
  · split
    · exact ⟨rfl, rfl, rfl, rfl, rfl, rfl⟩
    · exact ⟨rfl, rfl, rfl, rfl, rfl, rfl⟩
  · exact ⟨rfl, rfl, rfl, rfl, rfl, rfl⟩

theorem addOutput_fst (st : ReplState) (l : List Char) :
    (addOutput st l).1 = addLinesToCurrentRound st (1 + countNewlines l) := rfl

theorem execCurrentCommand_frame (env : Env) (st : ReplState) (k : List Char) :
    (execCurrentCommand env st k).1.running = st.running ∧
    (execCurrentCommand env st k).1.exitPressCount = st.exitPressCount := by
  unfold execCurrentCommand
  split
  · exact ⟨rfl, rfl⟩
  · simp [addOutput_fst, addLinesToCurrentRound_frame, endRound, startRound]

theorem execBufferCommandAux_frame (env : Env) (st : ReplState) (b : List Char) :
    ∀ n : Nat, (execBufferCommandAux env st b n).1.running = st.running ∧
      (execBufferCommandAux env st b n).1.exitPressCount = st.exitPressCount := by
  intro n
  induction n with
  | zero => simp [execBufferCommandAux, addOutput_fst, addLinesToCurrentRound_frame]
  | succ m ih =>
    simp only [execBufferCommandAux]
    split
    · simp [addOutput_fst, addLinesToCurrentRound_frame, endRound, startRound]
    · exact ih

theorem execBufferCommand_frame (env : Env) (st : ReplState) (b : List Char) :
    (execBufferCommand env st b).1.running = st.running ∧
    (execBufferCommand env st b).1.exitPressCount = st.exitPressCount :=
  execBufferCommandAux_frame env st b b.length

theorem updateInputBufferFromVar_frame (st : ReplState) (n : String)
    (vd : Option VarDef) :
    (updateInputBufferFromVar st n vd).running = st.running ∧
    (updateInputBufferFromVar st n vd).sm = st.sm ∧
    (updateInputBufferFromVar st n vd).store = st.store ∧
    (updateInputBufferFromVar st n vd).originalValues = st.originalValues ∧
    (updateInputBufferFromVar st n vd).awaitingCtrlXCombo = st.awaitingCtrlXCombo ∧
    (updateInputBufferFromVar st n vd).exitPressCount = st.exitPressCount :=
  ⟨rfl, rfl, rfl, rfl, rfl, rfl⟩

theorem applyInputValue_frame (st : ReplState) (n : String) (vd : Option VarDef) :
    (applyInputValue st n vd).running = st.running ∧
    (applyInputValue st n vd).sm = st.sm ∧
    (applyInputValue st n vd).originalValues = st.originalValues ∧
    (applyInputValue st n vd).awaitingCtrlXCombo = st.awaitingCtrlXCombo ∧
    (applyInputValue st n vd).exitPressCount = st.exitPressCount := by
  unfold applyInputValue
  split
  · exact ⟨rfl, rfl, rfl, rfl, rfl⟩
  · split
    · split
      · exact ⟨rfl, rfl, rfl, rfl, rfl⟩
      · exact ⟨rfl, rfl, rfl, rfl, rfl⟩
    · exact ⟨rfl, rfl, rfl, rfl, rfl⟩

theorem selectVar_frame (st : ReplState) (n : String) :
    (selectVar st n).running = st.running ∧
    (selectVar st n).sm.mode = Mode.input ∧
    (selectVar st n).store = st.store ∧
    (selectVar st n).originalValues = st.originalValues ∧
    (selectVar st n).awaitingCtrlXCombo = st.awaitingCtrlXCombo ∧
    (selectVar st n).exitPressCount = st.exitPressCount :=
  ⟨rfl, rfl, rfl, rfl, rfl, rfl⟩

theorem enterVarEditMode_frame (st : ReplState) (n : String) (b : Bool) :
    (enterVarEditMode st n b).running = st.running ∧
    (enterVarEditMode st n b).sm.mode = Mode.input ∧
    (enterVarEditMode st n b).store = st.store ∧
    (enterVarEditMode st n b).awaitingCtrlXCombo = st.awaitingCtrlXCombo ∧
    (enterVarEditMode st n b).exitPressCount = st.exitPressCount := by
  unfold enterVarEditMode
  split
  · split
    · exact ⟨rfl, rfl, rfl, rfl, rfl⟩
    · exact ⟨rfl, rfl, rfl, rfl, rfl⟩
  · split
    · exact ⟨rfl, rfl, rfl, rfl, rfl⟩
    · exact ⟨rfl, rfl, rfl, rfl, rfl⟩

theorem handleNormalMode_frame (env : Env) (st : ReplState) (k : Key) :
    (handleNormalMode env st k).1.running = st.running ∧
    (handleNormalMode env st k).1.exitPressCount = st.exitPressCount := by
  cases k with
  | ctrl c => exact ⟨rfl, rfl⟩
  | escSeq r => exact ⟨rfl, rfl⟩
  | unknown r => exact ⟨rfl, rfl⟩
  | arrow a => exact ⟨rfl, rfl⟩
  | special s =>
    cases s with
    | enter =>
      simp only [handleNormalMode]
      split
      · exact ⟨rfl, rfl⟩
      · simp [execBufferCommand_frame]
    | escape => exact ⟨rfl, rfl⟩
    | backspace => exact ⟨rfl, rfl⟩
    | delete => exact ⟨rfl, rfl⟩
    | tab => exact ⟨rfl, rfl⟩
    | shiftTab => exact ⟨rfl, rfl⟩
  | char c =>
    simp only [handleNormalMode]
    split
    · exact ⟨rfl, rfl⟩
    · split
      · exact ⟨rfl, rfl⟩
      · split
        · exact ⟨rfl, rfl⟩
        · split
          · exact ⟨rfl, rfl⟩
          · split
            · exact ⟨rfl, rfl⟩
            · split
              · exact ⟨rfl, rfl⟩
              · split
                · split
                  · simp [enterVarEditMode_frame]
                  · exact ⟨rfl, rfl⟩
                · split
                  · simp [enterVarEditMode_frame]
                  · split
                    · simp [execCurrentCommand_frame]
                    · exact ⟨rfl, rfl⟩

/-- With no pending combo and none of the four control keys, `_handleKey`
resets the exit-confirmation counter and dispatches on the active mode. -/
theorem handleKey_mode_dispatch (env : Env) (st : ReplState) (k : Key)
    (hrun : st.running = true) (hawait : st.awaitingCtrlXCombo = false)
    (hc : ¬ k = Key.ctrl 'c') (hx : ¬ k = Key.ctrl 'x')
    (hd : ¬ k = Key.ctrl 'd') (hl : ¬ k = Key.ctrl 'l') :
    handleKey env st k =
      (match st.sm.mode with
       | Mode.normal => handleNormalMode env { st with exitPressCount := 0 } k
       | Mode.cmd => handleCmdMode { st with exitPressCount := 0 } k
       | Mode.input => handleInputMode { st with exitPressCount := 0 } k
       | Mode.agent => handleAgentMode { st with exitPressCount := 0 } k
       | Mode.llm => handleLlmMode env { st with exitPressCount := 0 } k
       | Mode.shell => handleShellMode { st with exitPressCount := 0 } k
       | Mode.word => handleWordMode env { st with exitPressCount := 0 } k
       | Mode.voice => handleVoiceMode { st with exitPressCount := 0 } k) := by
  simp only [handleKey]
  rw [if_neg (by simp [hrun]), if_pos hc, if_neg (by simpa using hawait),
    if_neg hx, if_neg hc, if_neg hd, if_neg hl]

/-- A bare Ctrl+C (running REPL, no pending combo, no registered child)
advances the exit-confirmation counter and stops only from the second
consecutive press on. -/
theorem handleKey_ctrlc_bare (env : Env) (st : ReplState)
    (hrun : st.running = true) (hawait : st.awaitingCtrlXCombo = false)
    (hchild : st.sig.child = none) :
    handleKey env st (Key.ctrl 'c') =
      (if 2 ≤ st.exitPressCount + 1 then
        ({ st with exitPressCount := st.exitPressCount + 1, running := false },
          [Effect.stopRepl])
      else
        ({ st with exitPressCount := st.exitPressCount + 1 },
          [Effect.flash ("Press Ctrl+C again to exit".toList),
            Effect.scheduleExitReset])) := by
  simp only [handleKey, handleInterrupt, hrun, hawait, hchild, stopReplAction]
  simp [hrun, hawait, hchild]

/-- In NORMAL mode, every key other than Ctrl+C resets the exit-confirmation
counter, and every key other than Ctrl+C and Ctrl+D leaves the REPL running. -/
theorem handleKey_other_key_resets (env : Env) (st : ReplState) (k : Key)
    (hrun : st.running = true) (hawait : st.awaitingCtrlXCombo = false)
    (hmode : st.sm.mode = Mode.normal) (hk : ¬ k = Key.ctrl 'c') :
    (handleKey env st k).1.exitPressCount = 0 ∧
    (¬ k = Key.ctrl 'd' → (handleKey env st k).1.running = true) := by
  by_cases hx : k = Key.ctrl 'x'
  · subst hx
    simp [handleKey, hrun, hawait]
  · by_cases hd : k = Key.ctrl 'd'
    · subst hd
      simp [handleKey, hrun, hawait, stopReplAction]
    · by_cases hl : k = Key.ctrl 'l'
      · subst hl
        simp [handleKey, hrun, hawait]
      · rw [handleKey_mode_dispatch env st k hrun hawait hk hx hd hl, hmode]
        refine ⟨?_, fun _ => ?_⟩
        · exact (handleNormalMode_frame env { st with exitPressCount := 0 } k).2
        · exact (handleNormalMode_frame env { st with exitPressCount := 0 } k).1.trans hrun

/-- An INPUT-mode edit key leaves the mode in INPUT (or the machine
untouched), and touches neither the snapshot nor the control flags. -/
theorem handleInputMode_edit_frame (st : ReplState) (k : Key)
    (hk : editKey k = true) :
    (handleInputMode st k).1.running = st.running ∧
    (handleInputMode st k).1.awaitingCtrlXCombo = st.awaitingCtrlXCombo ∧
    (handleInputMode st k).1.originalValues = st.originalValues ∧
    ((handleInputMode st k).1.sm.mode = Mode.input ∨
      (handleInputMode st k).1.sm = st.sm) := by
  cases k with
  | ctrl c => simp [editKey] at hk
  | escSeq r => simp [editKey] at hk
  | unknown r => simp [editKey] at hk
  | char c =>
    simp only [handleInputMode]
    obtain ⟨h1, h2, h3, h4, h5⟩ := applyInputValue_frame
      { st with
          inputValue := st.inputValue ++ [c]
          inlineBuffer := st.inputValue ++ [c] }
      ((st.sm.inputVar).getD "") (st.store.getDef ((st.sm.inputVar).getD ""))
    exact ⟨h1, h4, h3, Or.inr h2⟩
  | arrow a =>
    cases a with
    | up =>
      simp only [handleInputMode]
      obtain ⟨u1, u2, u3, u4, u5, u6⟩ := updateInputBufferFromVar_frame
        { st with
            store := st.store.set ((st.sm.inputVar).getD "")
              (incrementValue (st.store.get ((st.sm.inputVar).getD ""))
                ((st.store.getDef ((st.sm.inputVar).getD "")).getD
                  { vtype := VType.string })) }
        ((st.sm.inputVar).getD "") (st.store.getDef ((st.sm.inputVar).getD ""))
      exact ⟨u1, u5, u4, Or.inr u2⟩
    | down =>
      simp only [handleInputMode]
      obtain ⟨u1, u2, u3, u4, u5, u6⟩ := updateInputBufferFromVar_frame
        { st with
            store := st.store.set ((st.sm.inputVar).getD "")
              (decrementValue (st.store.get ((st.sm.inputVar).getD ""))
                ((st.store.getDef ((st.sm.inputVar).getD "")).getD
                  { vtype := VType.string })) }
        ((st.sm.inputVar).getD "") (st.store.getDef ((st.sm.inputVar).getD ""))
      exact ⟨u1, u5, u4, Or.inr u2⟩
    | left =>
      simp only [handleInputMode]
      split
      · obtain ⟨s1, s2, s3, s4, s5, s6⟩ := selectVar_frame st _
        exact ⟨s1, s5, s4, Or.inl s2⟩
      · exact ⟨rfl, rfl, rfl, Or.inr rfl⟩
    | right =>
      simp only [handleInputMode]
      split
      · obtain ⟨s1, s2, s3, s4, s5, s6⟩ := selectVar_frame st _
        exact ⟨s1, s5, s4, Or.inl s2⟩
      · exact ⟨rfl, rfl, rfl, Or.inr rfl⟩
  | special s =>
    cases s with
    | enter => simp [editKey] at hk
    | escape => simp [editKey] at hk
    | delete => simp [editKey] at hk
    | tab => simp [editKey] at hk
    | shiftTab => simp [editKey] at hk
    | backspace =>
      simp only [handleInputMode]
      split
      · exact ⟨rfl, rfl, rfl, Or.inr rfl⟩
      · obtain ⟨h1, h2, h3, h4, h5⟩ := applyInputValue_frame
          { st with
              inputValue := st.inputValue.dropLast
              inlineBuffer := st.inputValue.dropLast }
          ((st.sm.inputVar).getD "") (st.store.getDef ((st.sm.inputVar).getD ""))
        exact ⟨h1, h4, h3, Or.inr h2⟩

/-- While a variable edit session is live (INPUT mode, running, no pending
combo), every edit key keeps the session live and keeps the snapshot. -/
theorem handleKey_edit_preserves (env : Env) (st : ReplState) (k : Key)
    (hk : editKey k = true) (hrun : st.running = true)
    (hawait : st.awaitingCtrlXCombo = false) (hmode : st.sm.mode = Mode.input) :
    (handleKey env st k).1.running = true ∧
    (handleKey env st k).1.awaitingCtrlXCombo = false ∧
    (handleKey env st k).1.sm.mode = Mode.input ∧
    (handleKey env st k).1.originalValues = st.originalValues := by
  have hnc : ∀ ch : Char, ¬ k = Key.ctrl ch := by
    intro ch h
    subst h
    simp [editKey] at hk
  rw [handleKey_mode_dispatch env st k hrun hawait (hnc 'c') (hnc 'x')
    (hnc 'd') (hnc 'l'), hmode]
  obtain ⟨h1, h2, h3, h4⟩ :=
    handleInputMode_edit_frame { st with exitPressCount := 0 } k hk
  refine ⟨h1.trans hrun, h2.trans hawait, ?_, h3⟩
  cases h4 with
  | inl h => exact h
  | inr h => exact (congrArg ModeSM.mode h).trans hmode

theorem runKeys_acc_fst (env : Env) :
    ∀ (ks : List Key) (st : ReplState) (e1 e2 : List Effect),
      (List.foldl (fun acc k =>
        let r := handleKey env acc.1 k
        (r.1, acc.2 ++ r.2)) (st, e1) ks).1 =
      (List.foldl (fun acc k =>
        let r := handleKey env acc.1 k
        (r.1, acc.2 ++ r.2)) (st, e2) ks).1 := by
  intro ks
  induction ks with
  | nil => intro st e1 e2; rfl
  | cons k ks ih =>
    intro st e1 e2
    simp only [List.foldl_cons]
    exact ih _ _ _

theorem runKeys_cons_fst (env : Env) (st : ReplState) (k : Key) (ks : List Key) :
    (runKeys env st (k :: ks)).1 = (runKeys env (handleKey env st k).1 ks).1 := by
  unfold runKeys
  simp only [List.foldl_cons]
  exact runKeys_acc_fst env ks (handleKey env st k).1 _ _

/-- A whole sequence of edit keys keeps the edit session live and keeps the
snapshot. -/
theorem runKeys_edit_preserves (env : Env) :
    ∀ (ks : List Key) (st : ReplState), ks.all editKey = true →
      st.running = true → st.awaitingCtrlXCombo = false →
      st.sm.mode = Mode.input →
      (runKeys env st ks).1.running = true ∧
      (runKeys env st ks).1.awaitingCtrlXCombo = false ∧
      (runKeys env st ks).1.sm.mode = Mode.input ∧
      (runKeys env st ks).1.originalValues = st.originalValues := by
  intro ks
  induction ks with
  | nil => intro st _ h1 h2 h3; exact ⟨h1, h2, h3, rfl⟩
  | cons k ks ih =>
    intro st hall h1 h2 h3
    rw [List.all_cons, Bool.and_eq_true] at hall
    obtain ⟨p1, p2, p3, p4⟩ := handleKey_edit_preserves env st k hall.1 h1 h2 h3
    obtain ⟨q1, q2, q3, q4⟩ := ih (handleKey env st k).1 hall.2 p1 p2 p3
    rw [runKeys_cons_fst]
    exact ⟨q1, q2, q3, q4.trans p4⟩

/-- Entering INPUT mode from a snapshot-free NORMAL state records the
snapshot of all current values. -/
theorem enterVarEditMode_entry (st : ReplState) (n : String) (b : Bool)
    (horig : st.originalValues = none) :
    (enterVarEditMode st n b).running = st.running ∧
    (enterVarEditMode st n b).awaitingCtrlXCombo = st.awaitingCtrlXCombo ∧
    (enterVarEditMode st n b).sm.mode = Mode.input ∧
    (enterVarEditMode st n b).originalValues = some st.store.values := by
  unfold enterVarEditMode
  rw [if_pos horig]
  split
  · exact ⟨rfl, rfl, rfl, rfl⟩
  · exact ⟨rfl, rfl, rfl, rfl⟩

/-- Pressing a variable hotkey (or `$`) in NORMAL mode with no live snapshot
enters INPUT mode and snapshots the store's values. -/
theorem handleKey_hotkey_enters_input (env : Env) (st : ReplState) (c : Char)
    (p : String × VarDef)
    (hrun : st.running = true) (hawait : st.awaitingCtrlXCombo = false)
    (hmode : st.sm.mode = Mode.normal) (horig : st.originalValues = none)
    (hentry : (st.store.findByHotkey c = some p ∧
        ¬ (c = ':' ∨ c = '@' ∨ c = '!' ∨ c = '%' ∨ c = '#' ∨ c = '?' ∨ c = '$')) ∨
      (c = '$' ∧ st.store.firstVar = some p)) :
    (handleKey env st (Key.char c)).1.running = true ∧
    (handleKey env st (Key.char c)).1.awaitingCtrlXCombo = false ∧
    (handleKey env st (Key.char c)).1.sm.mode = Mode.input ∧
    (handleKey env st (Key.char c)).1.originalValues = some st.store.values := by
  rw [handleKey_mode_dispatch env st (Key.char c) hrun hawait (by simp)
    (by simp) (by simp) (by simp), hmode]
  rcases hentry with ⟨hsel, hc⟩ | ⟨hdol, hfirst⟩
  · obtain ⟨e1, e2, e3, e4⟩ :=
      enterVarEditMode_entry ({ st with exitPressCount := 0 }) p.1 true horig
    push_neg at hc
    simp only [handleNormalMode]
    rw [if_neg hc.1, if_neg hc.2.1, if_neg hc.2.2.1, if_neg hc.2.2.2.1,
      if_neg hc.2.2.2.2.1, if_neg hc.2.2.2.2.2.1, if_neg hc.2.2.2.2.2.2, hsel]
    exact ⟨e1.trans hrun, e2.trans hawait, e3, e4⟩
  · obtain ⟨e1, e2, e3, e4⟩ :=
      enterVarEditMode_entry ({ st with exitPressCount := 0 }) p.1 false horig
    subst hdol
    simp only [handleNormalMode]
    rw [hfirst]
    exact ⟨e1.trans hrun, e2.trans hawait, e3, e4⟩

/-- Escape during a live edit session restores the snapshotted values as a
unit, discards the snapshot, and returns to NORMAL mode. -/
theorem handleKey_escape_exits_input (env : Env) (st : ReplState)
    (snap : List (String × Value))
    (hrun : st.running = true) (hawait : st.awaitingCtrlXCombo = false)
    (hmode : st.sm.mode = Mode.input)
    (horig : st.originalValues = some snap) :
    (handleKey env st (Key.special SpecialKey.escape)).1.store.values = snap ∧
    (handleKey env st (Key.special SpecialKey.escape)).1.sm.mode = Mode.normal ∧
    (handleKey env st (Key.special SpecialKey.escape)).1.originalValues = none := by
  rw [handleKey_mode_dispatch env st _ hrun hawait (by simp) (by simp)
    (by simp) (by simp), hmode]
  simp only [handleInputMode]
  rw [horig]
  exact ⟨rfl, rfl, trivial⟩

/-! ## The claims -/

/-- Claim C1: for an int variable with range `[1,100]` and step 1 (any
format, hotkey or default), incrementing the value 100 clamps at 100, while
for an enum over `[call, put]` incrementing `put` wraps around to `call`. -/
theorem C1_increment_clamp_vs_enum_wrap (stp : Option Dec)
    (fmt : Option (List Char)) (hk : Option Char) (v0 : Option Value) :
    incrementValue (Value.num ⟨100, 0⟩)
      { vtype := VType.int
        range := some [Value.num ⟨1, 0⟩, Value.num ⟨100, 0⟩]
        step := some (⟨1, 0⟩ : Dec)
        format := fmt
        hotkey := hk
        value := v0 } = Value.num ⟨100, 0⟩ ∧
    incrementValue (Value.str ("put".toList))
      { vtype := VType.enum
        range := some [Value.str ("call".toList), Value.str ("put".toList)]
        step := stp
        format := fmt
        hotkey := hk
        value := v0 } = Value.str ("call".toList) :=
  ⟨rfl, rfl⟩

/-- Claim C2, counterexample: with an int definition formatted as `%x`,
formatting 255 yields `ff`, which does not parse back (the claimed
round-trip law fails for definitions carrying a numeric format spec). -/
theorem C2_hex_format_roundtrip_counterexample :
    formatValue (Value.num ⟨255, 0⟩) hexIntDef = "ff".toList ∧
    parseValue (formatValue (Value.num ⟨255, 0⟩) hexIntDef) hexIntDef = none := by
  decide

/-- Claim C2, amended: formatting then re-parsing is the identity for int
and float definitions without a format spec (float values in canonical
printed form), and for enum definitions on every member of the range. -/
theorem C2_roundtrip_format_free_amended (vd : VarDef) :
    (vd.vtype = VType.int → vd.format = none →
      ∀ i : Int, parseValue (formatValue (Value.num ⟨i, 0⟩) vd) vd =
        some (Value.num ⟨i, 0⟩)) ∧
    (vd.vtype = VType.float → vd.format = none →
      ∀ d : Dec, d.normal →
        parseValue (formatValue (Value.num d) vd) vd = some (Value.num d)) ∧
    (vd.vtype = VType.enum →
      ∀ l : List Value, vd.range = some l →
        ∀ s : List Char, Value.str s ∈ l →
          parseValue (formatValue (Value.str s) vd) vd = some (Value.str s)) := by
  refine ⟨fun ht hf i => ?_, fun ht hf d hn => ?_, fun ht l hr s hm => ?_⟩
  · have hfv : formatValue (Value.num ⟨i, 0⟩) vd = intToChars i := by
      simp [formatValue, ht, hf, jsString, decChars]
    rw [hfv]
    simp [parseValue, ht, parseIntJs_intToChars]
  · have hfv : formatValue (Value.num d) vd = decChars d := by
      simp [formatValue, ht, hf, jsString]
    rw [hfv]
    simp [parseValue, ht, parseFloatJs_decChars hn]
  · have hfv : formatValue (Value.str s) vd = s := by
      simp [formatValue, ht, jsString]
    rw [hfv]
    simp [parseValue, ht, hr, hm]

/-- Witness for the amended C2 round-trip at concrete inputs. -/
theorem C2_roundtrip_format_free_amended_witness :
    parseValue (formatValue (Value.num ⟨255, 0⟩) intPlainDef) intPlainDef =
      some (Value.num ⟨255, 0⟩) ∧
    parseValue (formatValue (Value.str ("put".toList)) enumDef) enumDef =
      some (Value.str ("put".toList)) :=
  ⟨(C2_roundtrip_format_free_amended intPlainDef).1 rfl rfl 255,
    (C2_roundtrip_format_free_amended enumDef).2.2 rfl
      [Value.str ("call".toList), Value.str ("put".toList)] rfl
      ("put".toList) (by decide)⟩

/-- Claim C3: the interrupt escalation ladder.  With no registered child,
`handleInterrupt` reports unhandled and changes nothing; with a child, the
first call delivers an interrupt signal, the second a forced kill (each to
the process group, falling back to the child itself when group signalling
throws), and from the third on it runs the emergency callback and
terminates; registering and unregistering both reset the counter. -/
theorem C3_interrupt_escalation :
    (∀ st : SignalState, st.child = none → handleInterrupt st = (st, false, [])) ∧
    (∀ (st : SignalState) (proc : ChildProc), st.child = some proc →
      st.interruptCount = 0 →
      handleInterrupt st =
        ({ st with interruptCount := 1 }, true, sendSignalActions proc Sig.sigint)) ∧
    (∀ (st : SignalState) (proc : ChildProc), st.child = some proc →
      st.interruptCount = 1 →
      handleInterrupt st =
        ({ st with interruptCount := 2 }, true, sendSignalActions proc Sig.sigkill)) ∧
    (∀ (st : SignalState) (proc : ChildProc), st.child = some proc →
      2 ≤ st.interruptCount → st.hasExitCallback = true →
      handleInterrupt st =
        ({ st with interruptCount := st.interruptCount + 1 }, true,
          [SigAction.emergencyCallback, SigAction.exitProcess])) ∧
    (∀ (proc : ChildProc) (sg : Sig), proc.groupKillFails = false →
      sendSignalActions proc sg = [SigAction.signalGroup proc.pid sg]) ∧
    (∀ (proc : ChildProc) (sg : Sig), proc.groupKillFails = true →
      proc.directKillFails = false →
      sendSignalActions proc sg = [SigAction.signalChild sg]) ∧
    (∀ (proc : ChildProc) (hasCb : Bool),
      (registerChildProcess proc hasCb).interruptCount = 0) ∧
    (∀ st : SignalState, (unregisterChildProcess st).interruptCount = 0) := by
  refine ⟨fun st h => ?_, fun st proc h hc => ?_, fun st proc h hc => ?_,
    fun st proc h hc hcb => ?_, fun proc sg h => ?_, fun proc sg h h2 => ?_,
    fun proc hasCb => rfl, fun st => rfl⟩
  · simp [handleInterrupt, h]
  · simp [handleInterrupt, h, hc]
  · simp [handleInterrupt, h, hc]
  · simp only [handleInterrupt, h]
    rw [if_neg (by simp; omega), if_neg (by simp; omega)]
    simp [hcb]
  · simp [sendSignalActions, h]
  · simp [sendSignalActions, h, h2]

/-- Witness for the C3 escalation ladder at concrete inputs. -/
theorem C3_interrupt_escalation_witness :
    handleInterrupt ⟨some ⟨7, false, false⟩, 0, true⟩ =
      (⟨some ⟨7, false, false⟩, 1, true⟩, true,
        [SigAction.signalGroup 7 Sig.sigint]) ∧
    handleInterrupt ⟨some ⟨7, true, false⟩, 2, true⟩ =
      (⟨some ⟨7, true, false⟩, 3, true⟩, true,
        [SigAction.emergencyCallback, SigAction.exitProcess]) ∧
    handleInterrupt ⟨none, 0, false⟩ = (⟨none, 0, false⟩, false, []) :=
  ⟨C3_interrupt_escalation.2.1 ⟨some ⟨7, false, false⟩, 0, true⟩
      ⟨7, false, false⟩ rfl rfl,
    C3_interrupt_escalation.2.2.2.1 ⟨some ⟨7, true, false⟩, 2, true⟩
      ⟨7, true, false⟩ rfl (by decide) rfl,
    C3_interrupt_escalation.1 ⟨none, 0, false⟩ rfl⟩

/-- Claim C4: entering INPUT mode on a hotkey (or `$`) from a snapshot-free
NORMAL state, performing any sequence of in-mode edits (typed characters,
backspaces, arrow increments/decrements and reselections), and pressing
escape restores every variable value to its value at entry and returns the
machine to NORMAL mode with the snapshot discarded. -/
theorem C4_input_escape_restores_snapshot (env : Env) (st : ReplState)
    (c : Char) (p : String × VarDef) (ks : List Key)
    (hrun : st.running = true) (hawait : st.awaitingCtrlXCombo = false)
    (hmode : st.sm.mode = Mode.normal) (horig : st.originalValues = none)
    (hentry : (st.store.findByHotkey c = some p ∧
        ¬ (c = ':' ∨ c = '@' ∨ c = '!' ∨ c = '%' ∨ c = '#' ∨ c = '?' ∨ c = '$')) ∨
      (c = '$' ∧ st.store.firstVar = some p))
    (hks : ks.all editKey = true) :
    (handleKey env ((runKeys env ((handleKey env st (Key.char c)).1) ks).1)
        (Key.special SpecialKey.escape)).1.store.values = st.store.values ∧
    (handleKey env ((runKeys env ((handleKey env st (Key.char c)).1) ks).1)
        (Key.special SpecialKey.escape)).1.sm.mode = Mode.normal ∧
    (handleKey env ((runKeys env ((handleKey env st (Key.char c)).1) ks).1)
        (Key.special SpecialKey.escape)).1.originalValues = none := by
  obtain ⟨a1, a2, a3, a4⟩ :=
    handleKey_hotkey_enters_input env st c p hrun hawait hmode horig hentry
  obtain ⟨b1, b2, b3, b4⟩ :=
    runKeys_edit_preserves env ks (handleKey env st (Key.char c)).1 hks a1 a2 a3
  exact handleKey_escape_exits_input env _ st.store.values b1 b2 b3 (b4.trans a4)

/-- Witness for C4: hotkey `q`, one arrow-up edit, then escape. -/
theorem C4_input_escape_restores_snapshot_witness :
    (handleKey demoEnv
        ((runKeys demoEnv ((handleKey demoEnv demoState (Key.char 'q')).1)
          [Key.arrow ArrowKey.up]).1)
        (Key.special SpecialKey.escape)).1.store.values =
      demoState.store.values ∧
    (handleKey demoEnv
        ((runKeys demoEnv ((handleKey demoEnv demoState (Key.char 'q')).1)
          [Key.arrow ArrowKey.up]).1)
        (Key.special SpecialKey.escape)).1.sm.mode = Mode.normal ∧
    (handleKey demoEnv
        ((runKeys demoEnv ((handleKey demoEnv demoState (Key.char 'q')).1)
          [Key.arrow ArrowKey.up]).1)
        (Key.special SpecialKey.escape)).1.originalValues = none :=
  C4_input_escape_restores_snapshot demoEnv demoState 'q' ("QTY", qtyDef)
    [Key.arrow ArrowKey.up] rfl rfl rfl rfl
    (Or.inl ⟨by decide, by decide⟩) (by decide)

/-- Claim C5, counterexample: after one bare Ctrl+C, the key Ctrl+D is a key
other than Ctrl+C, yet the REPL exits, contradicting that any other key
leaves the REPL running. -/
theorem C5_ctrlc_then_ctrld_counterexample :
    ¬ Key.ctrl 'd' = Key.ctrl 'c' ∧
    demoState.sig.child = none ∧
    (runKeys demoEnv demoState [Key.ctrl 'c', Key.ctrl 'd']).1.running = false := by
  decide

/-- Claim C5, amended: with no child registered and the REPL in NORMAL mode,
two consecutive Ctrl+C presses terminate the REPL; after one press, any key
other than Ctrl+C resets the exit-confirmation counter to zero, and any key
other than Ctrl+C and Ctrl+D leaves the REPL running; the confirmation
timeout also resets the counter. -/
theorem C5_ctrlc_exit_confirmation_amended (env : Env) (st : ReplState)
    (k : Key)
    (hrun : st.running = true) (hawait : st.awaitingCtrlXCombo = false)
    (hmode : st.sm.mode = Mode.normal) (hchild : st.sig.child = none)
    (hcount : st.exitPressCount = 0) :
    ((handleKey env st (Key.ctrl 'c')).1.running = true ∧
      (handleKey env ((handleKey env st (Key.ctrl 'c')).1)
        (Key.ctrl 'c')).1.running = false) ∧
    (¬ k = Key.ctrl 'c' →
      (handleKey env ((handleKey env st (Key.ctrl 'c')).1) k).1.exitPressCount = 0 ∧
      (¬ k = Key.ctrl 'd' →
        (handleKey env ((handleKey env st (Key.ctrl 'c')).1) k).1.running = true)) ∧
    (exitTimeoutFired ((handleKey env st (Key.ctrl 'c')).1)).exitPressCount = 0 := by
  have h1 := handleKey_ctrlc_bare env st hrun hawait hchild
  rw [hcount, if_neg (by norm_num)] at h1
  have h2 := handleKey_ctrlc_bare env
    ({ st with exitPressCount := 0 + 1 } : ReplState) hrun hawait hchild
  rw [if_pos (by norm_num)] at h2
  refine ⟨⟨?_, ?_⟩, fun hk => ?_, rfl⟩
  · rw [h1]
    exact hrun
  · rw [h1, h2]
  · rw [h1]
    exact handleKey_other_key_resets env _ k hrun hawait hmode hk

/-- Witness for the amended C5 at concrete inputs. -/
theorem C5_ctrlc_exit_confirmation_amended_witness :
    ((handleKey demoEnv demoState (Key.ctrl 'c')).1.running = true ∧
      (handleKey demoEnv ((handleKey demoEnv demoState (Key.ctrl 'c')).1)
        (Key.ctrl 'c')).1.running = false) ∧
    (¬ Key.char 'z' = Key.ctrl 'c' →
      (handleKey demoEnv ((handleKey demoEnv demoState (Key.ctrl 'c')).1)
        (Key.char 'z')).1.exitPressCount = 0 ∧
      (¬ Key.char 'z' = Key.ctrl 'd' →
        (handleKey demoEnv ((handleKey demoEnv demoState (Key.ctrl 'c')).1)
          (Key.char 'z')).1.running = true)) ∧
    (exitTimeoutFired ((handleKey demoEnv demoState
      (Key.ctrl 'c')).1)).exitPressCount = 0 :=
  C5_ctrlc_exit_confirmation_amended demoEnv demoState (Key.char 'z')
    rfl rfl rfl rfl rfl

/-- Claim C6: each CSI arrow sequence decodes to exactly one arrow event; an
arrow sequence embedded after any complete chunk contributes exactly one
arrow event; and splitting a stream at boundaries that never fall inside an
escape sequence never changes the decoded event list. -/
theorem C6_arrow_decode_chunking :
    (decodeChunk [escChar, '[', 'A'] = [Key.arrow ArrowKey.up] ∧
      decodeChunk [escChar, '[', 'B'] = [Key.arrow ArrowKey.down] ∧
      decodeChunk [escChar, '[', 'C'] = [Key.arrow ArrowKey.right] ∧
      decodeChunk [escChar, '[', 'D'] = [Key.arrow ArrowKey.left]) ∧
    (∀ (a : ArrowKey) (pre post : List Char), chunkComplete pre = true →
      decodeChunk (pre ++ escChar :: '[' :: arrowFinal a :: post) =
        decodeChunk pre ++ Key.arrow a :: decodeChunk post) ∧
    (∀ chunks : List (List Char),
      (∀ s ∈ chunks.dropLast, chunkComplete s = true) →
      decodeChunks chunks = decodeChunk chunks.flatten) := by
  refine ⟨⟨by decide, by decide, by decide, by decide⟩, ?_,
    decodeChunks_eq_decodeChunk⟩
  intro a pre post hc
  rw [decodeChunk_append pre _ hc]
  have hsc : scanCSI (arrowFinal a :: post) = ([], some (arrowFinal a), post) :=
    scanCSI_cons_final post (by cases a <;> decide)
  have h2 : decodeChunk (escChar :: '[' :: arrowFinal a :: post) =
      Key.arrow a :: decodeChunk post := by
    unfold decodeChunk
    rw [splitChunks_csi, hsc]
    cases a <;> rfl
  rw [h2]

/-- Witness for C6: an arrow sequence after one complete chunk, and a
two-chunk delivery matching the single-chunk decode. -/
theorem C6_arrow_decode_chunking_witness :
    decodeChunk (['q'] ++ escChar :: '[' :: arrowFinal ArrowKey.up :: ['w']) =
      decodeChunk ['q'] ++ Key.arrow ArrowKey.up :: decodeChunk ['w'] ∧
    decodeChunks [['q'], [escChar, '[', 'A']] =
      decodeChunk (List.flatten [['q'], [escChar, '[', 'A']]) :=
  ⟨C6_arrow_decode_chunking.2.1 ArrowKey.up ['q'] ['w'] (by decide),
    C6_arrow_decode_chunking.2.2 [['q'], [escChar, '[', 'A']]
      (by intro s hs; simp at hs; rw [hs]; decide)⟩

/-- Claim C7: undo with an empty round log is a no-op with a flash message:
the state (and so the round count) is unchanged, nothing is erased, and the
only effect is the flash. -/
theorem C7_undo_empty_round_log (st : ReplState) (h : st.rounds = []) :
    undoLastRoundAction st = (st, [Effect.flash ("No rounds to undo".toList)]) := by
  simp [undoLastRoundAction, getRoundCount, h]

/-- Witness for C7 on the fresh demo REPL. -/
theorem C7_undo_empty_round_log_witness :
    undoLastRoundAction demoState =
      (demoState, [Effect.flash ("No rounds to undo".toList)]) :=
  C7_undo_empty_round_log demoState rfl

/-- Claim C8, counterexample: in INPUT mode on `QTY` (int, range `[1,100]`,
step 1, value 10), five presses of the `+` key do not increment: the store
still holds 10 and the displayed buffer is the literal text `+++++`. -/
theorem C8_plus_key_appends_counterexample :
    (runKeys demoEnv demoState
      (Key.char 'q' :: List.replicate 5 (Key.char '+'))).1.store.get "QTY" =
      Value.num ⟨10, 0⟩ ∧
    (runKeys demoEnv demoState
      (Key.char 'q' :: List.replicate 5 (Key.char '+'))).1.inlineBuffer =
      "+++++".toList := by
  decide

/-- Claim C8, amended: increment in INPUT mode is invoked by arrow-up (not
`+`): five arrow-up presses after entering on the hotkey yield value 15 and
displayed text `15`. -/
theorem C8_arrow_up_five_increments :
    (runKeys demoEnv demoState
      (Key.char 'q' :: List.replicate 5 (Key.arrow ArrowKey.up))).1.store.get "QTY" =
      Value.num ⟨15, 0⟩ ∧
    (runKeys demoEnv demoState
      (Key.char 'q' :: List.replicate 5 (Key.arrow ArrowKey.up))).1.inlineBuffer =
      "15".toList := by
  decide

/-- Claim C9 (code bug): `parseKey` never classifies any input as Ctrl+X —
the raw byte 0x18 comes out as an unknown key — so the documented
`Ctrl+X, u` undo combo is unreachable through the input decoder: feeding the
bytes 0x18 then `u` leaves the round log untouched. -/
theorem C9_ctrlx_undo_combo_unreachable :
    parseKey [Char.ofNat 24] = Key.unknown [Char.ofNat 24] ∧
    (∀ s : List Char, ¬ parseKey s = Key.ctrl 'x') ∧
    decodeChunk [Char.ofNat 24, 'u'] =
      [Key.unknown [Char.ofNat 24], Key.char 'u'] ∧
    (runKeys demoEnv demoRoundsState (decodeChunk [Char.ofNat 24, 'u'])).1.rounds =
      demoRoundsState.rounds := by
  refine ⟨by decide, ?_, by decide, by decide⟩
  intro s
  unfold parseKey
  by_cases h1 : s = [ctrlCChar]
  · rw [if_pos h1]; decide
  rw [if_neg h1]
  by_cases h2 : s = [ctrlDChar]
  · rw [if_pos h2]; decide
  rw [if_neg h2]
  by_cases h3 : s = [ctrlLChar]
  · rw [if_pos h3]; decide
  rw [if_neg h3]
  by_cases h4 : s = ['\x0d'] ∨ s = ['\n']
  · rw [if_pos h4]; decide
  rw [if_neg h4]
  by_cases h5 : s = [escChar]
  · rw [if_pos h5]; decide
  rw [if_neg h5]
  by_cases h6 : s = [backspaceChar]
  · rw [if_pos h6]; decide
  rw [if_neg h6]
  by_cases h7 : s = [escChar, '[', '3', '~']
  · rw [if_pos h7]; decide
  rw [if_neg h7]
  by_cases h8 : s = ['\t']
  · rw [if_pos h8]; decide
  rw [if_neg h8]
  by_cases h9 : s = [escChar, '[', 'Z']
  · rw [if_pos h9]; decide
  rw [if_neg h9]
  by_cases h10 : s = [escChar, '[', 'A']
  · rw [if_pos h10]; decide
  rw [if_neg h10]
  by_cases h11 : s = [escChar, '[', 'B']
  · rw [if_pos h11]; decide
  rw [if_neg h11]
  by_cases h12 : s = [escChar, '[', 'D']
  · rw [if_pos h12]; decide
  rw [if_neg h12]
  by_cases h13 : s = [escChar, '[', 'C']
  · rw [if_pos h13]; decide
  rw [if_neg h13]
  cases s with
  | nil => decide
  | cons c rest =>
    cases rest with
    | nil =>
      show ¬ (if ' ' ≤ c ∧ c ≤ '~' then Key.char c
        else if c = escChar then Key.escSeq [c] else Key.unknown [c]) =
          Key.ctrl 'x'
      by_cases hp : ' ' ≤ c ∧ c ≤ '~'
      · rw [if_pos hp]; simp
      · rw [if_neg hp]
        by_cases he : c = escChar
        · rw [if_pos he]; simp
        · rw [if_neg he]; simp
    | cons c2 rest2 =>
      show ¬ (if (c :: c2 :: rest2).head? = some escChar
        then Key.escSeq (c :: c2 :: rest2)
        else Key.unknown (c :: c2 :: rest2)) = Key.ctrl 'x'
      by_cases he : (c :: c2 :: rest2).head? = some escChar
      · rw [if_pos he]; simp
      · rw [if_neg he]; simp

/-- Witness for C9 at the concrete Ctrl+X byte. -/
theorem C9_ctrlx_undo_combo_unreachable_witness :
    ¬ parseKey [Char.ofNat 24] = Key.ctrl 'x' :=
  C9_ctrlx_undo_combo_unreachable.2.1 [Char.ofNat 24]

theorem jsIndexOf_eq_neg_one (l : List Value) (v : Value) (h : ¬ v ∈ l) :
    jsIndexOf l v = -1 := by
  unfold jsIndexOf
  have hnone : l.findIdx? (fun x => decide (x = v)) = none := by
    rw [List.findIdx?_eq_none_iff]
    intro x hx
    simp only [decide_eq_false_iff_not]
    intro he
    exact h (he ▸ hx)
  rw [hnone]

/-- Claim C10: an enum with a non-empty range and a current value outside it
increments to the first element and decrements to the last; with a missing
or empty range both operations return the value unchanged. -/
theorem C10_enum_nonmember_boundary (vd : VarDef)
    (ht : vd.vtype = VType.enum) :
    (∀ (l : List Value) (v : Value), vd.range = some l → ¬ l = [] → ¬ v ∈ l →
      incrementValue v vd = (l.head?).getD Value.undef ∧
      decrementValue v vd = (l.getLast?).getD Value.undef) ∧
    (∀ v : Value, vd.range = none →
      incrementValue v vd = v ∧ decrementValue v vd = v) ∧
    (∀ v : Value, vd.range = some [] →
      incrementValue v vd = v ∧ decrementValue v vd = v) := by
  refine ⟨fun l v hr hne hm => ⟨?_, ?_⟩, fun v hr => ?_, fun v hr => ?_⟩
  · simp only [incrementValue, ht, hr]
    have hie : l.isEmpty = false := by simp [List.isEmpty_iff, hne]
    rw [hie]
    have hidx : ((jsIndexOf l v + 1) % (l.length : Int)).toNat = 0 := by
      rw [jsIndexOf_eq_neg_one l v hm]
      simp
    simp only [Bool.false_eq_true, if_false, hidx, List.get?_zero]
  · simp only [decrementValue, ht, hr]
    have hie : l.isEmpty = false := by simp [List.isEmpty_iff, hne]
    rw [hie]
    have hidx : (if jsIndexOf l v ≤ 0 then (l.length : Int) - 1
        else jsIndexOf l v - 1).toNat = l.length - 1 := by
      rw [jsIndexOf_eq_neg_one l v hm, if_pos (by norm_num)]
      omega
    simp only [Bool.false_eq_true, if_false, hidx, List.get?_eq_getElem?,
      List.getLast?_eq_getElem?]
  · constructor
    · simp [incrementValue, ht, hr]
    · simp [decrementValue, ht, hr]
  · constructor
    · simp [incrementValue, ht, hr]
    · simp [decrementValue, ht, hr]

/-- Witness for C10 on the `[call, put]` enum with a non-member value. -/
theorem C10_enum_nonmember_boundary_witness :
    incrementValue (Value.str ['z']) enumDef = Value.str ("call".toList) ∧
    decrementValue (Value.str ['z']) enumDef = Value.str ("put".toList) := by
  have h := (C10_enum_nonmember_boundary enumDef rfl).1
    [Value.str ("call".toList), Value.str ("put".toList)] (Value.str ['z'])
    rfl (by decide) (by decide)
  exact ⟨h.1, h.2⟩

end Mari
